import Mathlib

/-!
# Verification of the silica UI core

A shallow embedding, in Lean 4, of the silica repository's layout and input
dispatch core:

* `silica-layout/src/lib.rs` — the geometry types (`euclid` `Size2D`,
  `Point2D`, `Rect`, `SideOffsets2D` over `i32`), `Style`, `Area`,
  `Direction`, `Align`, `Layout`, and the generic `measure` / `layout` /
  `measure_and_layout` drivers;
* `silica-layout/src/layout.rs` — the `BoxLayout`, `StackLayout` and
  `GridLayout` algorithms;
* `silica-gui/src/lib.rs` — the input dispatch machinery (`GuiInput`,
  `InputAction`, `Gui::dispatch_input_event`, `Gui::input_event`,
  `Gui::update_layout_data`, `Gui::layout`);
* `silica-gui/src/widget/button.rs` — `ButtonState::handle_input`,
  `Button::input` and the exclusive-group click behaviour.

Machine integers (`i32`) are modelled as `Int`; Rust's `/` on `i32`
(truncation toward zero) is modelled by `Int.tdiv`.  The generic recursion
over the node tree is modelled by explicit fuel; a node store plus
parent/children maps is modelled by a tree whose nodes carry their ordered
children, with mutation as explicit state passing.  Widgets are modelled by
their `measure` function (`Size → Size`); the color fields of `Style` are
omitted since no layout or dispatch code reads them.
-/

set_option autoImplicit false

namespace Silica

/-! ## Geometry (`euclid` types over `i32`, from `silica-layout/src/lib.rs`) -/

structure Size where
  width : Int
  height : Int
deriving Repr, DecidableEq

namespace Size

def zero : Size := ⟨0, 0⟩

instance : Inhabited Size := ⟨zero⟩

/-- `euclid::Size2D::max`, componentwise. -/
def maxS (a b : Size) : Size := ⟨max a.width b.width, max a.height b.height⟩

/-- `euclid::Size2D::min`, componentwise. -/
def minS (a b : Size) : Size := ⟨min a.width b.width, min a.height b.height⟩

/-- Componentwise subtraction (`Sub` for `Size2D`). -/
def sub (a b : Size) : Size := ⟨a.width - b.width, a.height - b.height⟩

/-- Componentwise addition (`Add` for `Size2D`). -/
def add (a b : Size) : Size := ⟨a.width + b.width, a.height + b.height⟩

/-- `Size2D / i32`: componentwise Rust `i32` division (truncation). -/
def sdiv (a : Size) (n : Int) : Size := ⟨Int.tdiv a.width n, Int.tdiv a.height n⟩

end Size

structure Point where
  x : Int
  y : Int
deriving Repr, DecidableEq

namespace Point

def origin : Point := ⟨0, 0⟩

instance : Inhabited Point := ⟨origin⟩

end Point

/-- `euclid::SideOffsets2D`: field order as in `SideOffsets2D::new(top, right, bottom, left)`. -/
structure SideOffsets where
  top : Int
  right : Int
  bottom : Int
  left : Int
deriving Repr, DecidableEq

namespace SideOffsets

def zero : SideOffsets := ⟨0, 0, 0, 0⟩

instance : Inhabited SideOffsets := ⟨zero⟩

def add (a b : SideOffsets) : SideOffsets :=
  ⟨a.top + b.top, a.right + b.right, a.bottom + b.bottom, a.left + b.left⟩

def horizontal (o : SideOffsets) : Int := o.left + o.right

def vertical (o : SideOffsets) : Int := o.top + o.bottom

end SideOffsets

structure Rect where
  origin : Point
  size : Size
deriving Repr, DecidableEq

namespace Rect

instance : Inhabited Rect := ⟨⟨Point.origin, Size.zero⟩⟩

def width (r : Rect) : Int := r.size.width

def height (r : Rect) : Int := r.size.height

def min_x (r : Rect) : Int := r.origin.x

def min_y (r : Rect) : Int := r.origin.y

def max_x (r : Rect) : Int := r.origin.x + r.size.width

def max_y (r : Rect) : Int := r.origin.y + r.size.height

/-- `euclid::Rect::inner_rect`. -/
def inner_rect (r : Rect) (o : SideOffsets) : Rect :=
  ⟨⟨r.origin.x + o.left, r.origin.y + o.top⟩,
   ⟨r.size.width - o.horizontal, r.size.height - o.vertical⟩⟩

/-- `euclid::Rect::outer_rect`. -/
def outer_rect (r : Rect) (o : SideOffsets) : Rect :=
  ⟨⟨r.origin.x - o.left, r.origin.y - o.top⟩,
   ⟨r.size.width + o.horizontal, r.size.height + o.vertical⟩⟩

/-- `euclid::Rect::contains`: the half-open box test. -/
def containsP (r : Rect) (p : Point) : Bool :=
  r.origin.x ≤ p.x && p.x < r.origin.x + r.size.width &&
  r.origin.y ≤ p.y && p.y < r.origin.y + r.size.height

end Rect

/-! ## Style and Area (`silica-layout/src/lib.rs`) -/

inductive Layout where
  | none
  | box
  | stack
  | grid (columns : Nat)
deriving Repr, DecidableEq

inductive Direction where
  | row
  | column
  | rowReverse
  | columnReverse
deriving Repr, DecidableEq

namespace Direction

/-- `Direction::horizontal`. -/
def horizontal : Direction → Bool
  | .row => true
  | .rowReverse => true
  | _ => false

/-- `Direction::layout_area`: carves a child area out of `rect`, returning
the carved area together with the updated (mutated) `rect`. -/
def layout_area (d : Direction) (rect : Rect) (size : Size) (gap : Int) : Rect × Rect :=
  match d with
  | .row =>
      let area : Rect := ⟨rect.origin, ⟨size.width, rect.height⟩⟩
      (area, ⟨⟨rect.origin.x + size.width + gap, rect.origin.y⟩,
              ⟨rect.size.width - (size.width + gap), rect.size.height⟩⟩)
  | .column =>
      let area : Rect := ⟨rect.origin, ⟨rect.width, size.height⟩⟩
      (area, ⟨⟨rect.origin.x, rect.origin.y + size.height + gap⟩,
              ⟨rect.size.width, rect.size.height - (size.height + gap)⟩⟩)
  | .rowReverse =>
      let rect' : Rect := ⟨rect.origin, ⟨rect.size.width - (size.width + gap), rect.size.height⟩⟩
      (⟨⟨rect'.max_x + gap, rect'.min_y⟩, ⟨size.width, rect'.height⟩⟩, rect')
  | .columnReverse =>
      let rect' : Rect := ⟨rect.origin, ⟨rect.size.width, rect.size.height - (size.height + gap)⟩⟩
      (⟨⟨rect'.min_x, rect'.max_y + gap⟩, ⟨rect'.width, size.height⟩⟩, rect')

end Direction

inductive Align where
  | stretch
  | start
  | end'
  | center
deriving Repr, DecidableEq

namespace Align

/-- `Align::align_area`. -/
def align_area (a : Align) (horizontal : Bool) (rect : Rect) (size : Size) : Rect :=
  if a = .stretch then rect
  else
    let inner_size := if horizontal then size.width else size.height
    let outer_size := if horizontal then rect.size.width else rect.size.height
    let rect := if horizontal then { rect with size := { rect.size with width := size.width } }
                else { rect with size := { rect.size with height := size.height } }
    let offset : Int :=
      match a with
      | .end' => outer_size - inner_size
      | .center => Int.tdiv (outer_size - inner_size) 2
      | _ => 0
    if horizontal then { rect with origin := { rect.origin with x := rect.origin.x + offset } }
    else { rect with origin := { rect.origin with y := rect.origin.y + offset } }

end Align

structure Style where
  hidden : Bool
  min_size : Size
  max_size : Size
  grow : Bool
  layout : Layout
  direction : Direction
  main_align : Align
  cross_align : Align
  gap : Int
  margin : SideOffsets
  border : SideOffsets
  padding : SideOffsets
deriving Repr, DecidableEq

namespace Style

/-- `impl Default for Style` (`i32::MAX = 2147483647`). -/
def default : Style where
  hidden := false
  min_size := Size.zero
  max_size := ⟨2147483647, 2147483647⟩
  grow := false
  layout := .box
  direction := .row
  main_align := .stretch
  cross_align := .stretch
  gap := 0
  margin := SideOffsets.zero
  border := SideOffsets.zero
  padding := SideOffsets.zero

instance : Inhabited Style := ⟨Style.default⟩

/-- `Style::box_offsets`. -/
def box_offsets (s : Style) : SideOffsets := (s.margin.add s.border).add s.padding

/-- `Style::box_size`. -/
def box_size (s : Style) : Size := ⟨s.box_offsets.horizontal, s.box_offsets.vertical⟩

/-- `Style::apply_min_max`. -/
def apply_min_max (s : Style) (size : Size) : Size := (size.maxS s.min_size).minS s.max_size

end Style

structure Area where
  measured_size : Size
  hidden : Bool
  content_rect : Rect
  background_rect : Rect
deriving Repr, DecidableEq

namespace Area

def new : Area := ⟨Size.zero, false, default, default⟩

instance : Inhabited Area := ⟨Area.new⟩

end Area

/-! ## The node tree

The source keeps nodes in a `SlotMap` plus a `SecondaryMap` of ordered
children lists; the traversals only ever follow the children map downward
from the given node, so a well-formed store is equivalent to a tree whose
nodes carry their ordered children.  A widget is modelled by its `measure`
function.  A node whose id has no entry in the children map behaves exactly
like one with an empty children list (both `children.get(id)` branches
return the zero/no-op result), so only the list is kept. -/

inductive LTree where
  | node (style : Style) (area : Area) (widget : Option (Size → Size)) (children : List LTree)

namespace LTree

instance : Inhabited LTree := ⟨.node Style.default Area.new none []⟩

def style : LTree → Style
  | .node s _ _ _ => s

def area : LTree → Area
  | .node _ a _ _ => a

def widget : LTree → Option (Size → Size)
  | .node _ _ w _ => w

def children : LTree → List LTree
  | .node _ _ _ cs => cs

end LTree

/-! ## Measure pass (`silica-layout`)

`measure`, `BoxLayout::measure`, `StackLayout::measure`, `GridLayout::measure`.
The general recursion is fuel-indexed; the helpers take the one-step-smaller
recursive function as a parameter. -/

/-- The body of `BoxLayout::measure`'s child loop: measures each child in
order, shrinking `available_space` along the main axis and aggregating
`size` exactly as the source does. -/
def boxMeasureFold (measureFn : LTree → Size → LTree × Size) (dir : Direction) (gap : Int) :
    List LTree → Size → Size → List LTree × Size
  | [], _, size => ([], size)
  | t :: ts, avail, size =>
      let (t', child_size) := measureFn t avail
      if dir.horizontal then
        let avail' : Size := { avail with width := avail.width - (child_size.width + gap) }
        let size' : Size :=
          ⟨(if size.width > 0 then size.width + gap else size.width) + child_size.width,
           max size.height child_size.height⟩
        let (ts', out) := boxMeasureFold measureFn dir gap ts avail' size'
        (t' :: ts', out)
      else
        let avail' : Size := { avail with height := avail.height - (child_size.height + gap) }
        let size' : Size :=
          ⟨max size.width child_size.width,
           (if size.height > 0 then size.height + gap else size.height) + child_size.height⟩
        let (ts', out) := boxMeasureFold measureFn dir gap ts avail' size'
        (t' :: ts', out)

/-- `StackLayout::measure`'s child loop: every child gets the full budget,
the result is the running componentwise max starting from zero. -/
def stackMeasureFold (measureFn : LTree → Size → LTree × Size) (avail : Size) :
    List LTree → Size → List LTree × Size
  | [], size => ([], size)
  | t :: ts, size =>
      let (t', child_size) := measureFn t avail
      let (ts', out) := stackMeasureFold measureFn avail ts (size.maxS child_size)
      (t' :: ts', out)

/-- The index list `(start..len).step_by(step)` of the grid loops. -/
def stepByIndices (start len step : Nat) : List Nat :=
  (List.range len).filter (fun i => start ≤ i && (i - start) % step == 0)

/-- Measure the child at index `i`, returning the updated list and its size
(indices out of range are unreachable for the actual index lists). -/
def measureAt (measureFn : LTree → Size → LTree × Size) (avail : Size)
    (ts : List LTree) (i : Nat) : List LTree × Size :=
  match ts[i]? with
  | Option.none => (ts, Size.zero)
  | Option.some t =>
      let (t', s) := measureFn t avail
      (ts.set i t', s)

/-- The first inner loop of `GridLayout::measure` for one column: the running
max of the measured sizes of the column's members, starting from zero. -/
def measureColumn (measureFn : LTree → Size → LTree × Size) (avail : Size) :
    List Nat → List LTree → Size → List LTree × Size
  | [], ts, acc => (ts, acc)
  | i :: is, ts, acc =>
      let (ts', s) := measureAt measureFn avail ts i
      measureColumn measureFn avail is ts' (acc.maxS s)

/-- The second inner loop of `GridLayout::measure` for one column: overwrite
`Area.measured_size` of every member with the column size. -/
def setMeasured (ts : List LTree) (is : List Nat) (s : Size) : List LTree :=
  is.foldl
    (fun acc i =>
      match acc[i]? with
      | Option.none => acc
      | Option.some (LTree.node st a w cs) => acc.set i (LTree.node st { a with measured_size := s } w cs))
    ts

/-- The outer column loop of `GridLayout::measure`. -/
def gridMeasureColumns (measureFn : LTree → Size → LTree × Size) (dir : Direction)
    (gap : Int) (columns len : Nat) :
    List Nat → Size → Size → List LTree → List LTree × Size
  | [], _, size, ts => (ts, size)
  | c :: cs, avail, size, ts =>
      let is := stepByIndices c len columns
      let (ts', child_size) := measureColumn measureFn avail is ts Size.zero
      let ts'' := setMeasured ts' is child_size
      if dir.horizontal then
        let avail' : Size := { avail with width := avail.width - (child_size.width + gap) }
        let size' : Size :=
          ⟨(if size.width > 0 then size.width + gap else size.width) + child_size.width,
           max size.height child_size.height⟩
        gridMeasureColumns measureFn dir gap columns len cs avail' size' ts''
      else
        let avail' : Size := { avail with height := avail.height - (child_size.height + gap) }
        let size' : Size :=
          ⟨max size.width child_size.width,
           (if size.height > 0 then size.height + gap else size.height) + child_size.height⟩
        gridMeasureColumns measureFn dir gap columns len cs avail' size' ts''

/-- `GridLayout::measure`. -/
def gridMeasureAlg (measureFn : LTree → Size → LTree × Size) (style : Style)
    (cs : List LTree) (available_space : Size) (columns : Nat) : List LTree × Size :=
  if cs.isEmpty then (cs, Size.zero)
  else
    let len := cs.length
    let (ts, size) :=
      gridMeasureColumns measureFn style.direction style.gap columns len
        (List.range columns) available_space Size.zero cs
    let rows : Int := ((len + columns - 1) / columns : Nat)
    let size :=
      if rows > 0 then
        if style.direction.horizontal then
          { size with height := size.height * rows + style.gap * (rows - 1) }
        else
          { size with width := size.width * rows + style.gap * (rows - 1) }
      else size
    (ts, size)

/-- `Layout::measure`: dispatch on the layout kind.  `Layout::None` returns
zero without touching the children. -/
def measureDispatch (measureFn : LTree → Size → LTree × Size) (style : Style)
    (cs : List LTree) (available_space : Size) : List LTree × Size :=
  match style.layout with
  | .none => (cs, Size.zero)
  | .box => boxMeasureFold measureFn style.direction style.gap cs available_space Size.zero
  | .stack => stackMeasureFold measureFn available_space cs Size.zero
  | .grid columns => gridMeasureAlg measureFn style cs available_space columns

/-- The body of the top-level `measure` (one unfolding of the recursion). -/
def measureStep (measureFn : LTree → Size → LTree × Size) (t : LTree)
    (available_space : Size) : LTree × Size :=
  match t with
  | .node style area widget cs =>
      let box_size := style.box_size
      let available := style.apply_min_max (available_space.sub box_size)
      let (cs', algSize) := measureDispatch measureFn style cs available
      let size :=
        match widget with
        | Option.some w => algSize.maxS (w available)
        | Option.none => algSize
      let size := (style.apply_min_max size).add box_size
      (.node style { area with measured_size := size } widget cs', size)

/-- `silica_layout::measure`, fuel-indexed.  With fuel at least the tree
height the fuel-exhausted branch is never taken. -/
def measure : Nat → LTree → Size → LTree × Size
  | 0, t, _ => (t, Size.zero)
  | f + 1, t, available_space => measureStep (measure f) t available_space

/-! ## Arrange pass (`silica-layout`)

`layout`, `BoxLayout::layout`, `StackLayout::layout`, `GridLayout::layout`. -/

/-- The `used_size` accumulation of `BoxLayout::layout` (also used per-row by
`GridLayout::layout`): along the main axis each child contributes its
measured size plus one `gap`. -/
def boxUsedSize (dir : Direction) (gap : Int) (cs : List LTree) : Size :=
  cs.foldl
    (fun used t =>
      if dir.horizontal then { used with width := used.width + (t.area.measured_size.width + gap) }
      else { used with height := used.height + (t.area.measured_size.height + gap) })
    Size.zero

/-- The `grow_count` accumulation of `BoxLayout::layout`. -/
def countGrow (cs : List LTree) : Nat :=
  cs.foldl (fun n t => if t.style.grow then n + 1 else n) 0

/-- The `unused_size` of `BoxLayout::layout` / `GridLayout::layout`. -/
def boxUnusedSize (dir : Direction) (rect : Rect) (used : Size) (gap : Int) : Size :=
  if dir.horizontal then ⟨max (rect.size.width - used.width + gap) 0, 0⟩
  else ⟨0, max (rect.size.height - used.height + gap) 0⟩

/-- The child placement loop of `BoxLayout::layout`. -/
def boxPlace (layoutFn : LTree → Rect → LTree) (dir : Direction) (cross_align : Align)
    (gap : Int) (grow_space : Size) : List LTree → Rect → List LTree
  | [], _ => []
  | t :: ts, rect =>
      let child_size :=
        if t.style.grow then t.area.measured_size.add grow_space else t.area.measured_size
      let (child_rect, rect') := dir.layout_area rect child_size gap
      let child_rect := cross_align.align_area (!dir.horizontal) child_rect child_size
      layoutFn t child_rect :: boxPlace layoutFn dir cross_align gap grow_space ts rect'

/-- `BoxLayout::layout`. -/
def boxLayoutAlg (layoutFn : LTree → Rect → LTree) (style : Style)
    (cs : List LTree) (rect : Rect) : List LTree :=
  let dir := style.direction
  let used_size := boxUsedSize dir style.gap cs
  let grow_count := countGrow cs
  let unused_size := boxUnusedSize dir rect used_size style.gap
  if grow_count > 0 then
    let grow_space := unused_size.sdiv (grow_count : Int)
    boxPlace layoutFn dir style.cross_align style.gap grow_space cs rect
  else
    let rect :=
      match style.main_align with
      | .end' => (dir.layout_area rect unused_size 0).2
      | .center => (dir.layout_area rect (unused_size.sdiv 2) 0).2
      | _ => rect
    boxPlace layoutFn dir style.cross_align style.gap Size.zero cs rect

/-- `StackLayout::layout`: every child is placed independently in the full
rect; a growing child is stretched, otherwise the container's `main_align`
and the child's own `cross_align` position it. -/
def stackLayoutAlg (layoutFn : LTree → Rect → LTree) (style : Style)
    (cs : List LTree) (rect : Rect) : List LTree :=
  cs.map fun t =>
    let child_size := t.area.measured_size
    let grow_align := if t.style.grow then Align.stretch else style.main_align
    let child_rect := grow_align.align_area style.direction.horizontal rect child_size
    let child_rect := t.style.cross_align.align_area (!style.direction.horizontal) child_rect child_size
    layoutFn t child_rect

/-- The inner loop of `GridLayout::layout`: lays out one column's members at
successive rows, stepping the cross-axis origin by `row_size + gap`. -/
def gridPlaceColumn (layoutFn : LTree → Rect → LTree) (horizontal : Bool)
    (row_size gap : Int) : List Nat → Rect → List LTree → List LTree
  | [], _, ts => ts
  | i :: is, r, ts =>
      let ts' :=
        match ts[i]? with
        | Option.none => ts
        | Option.some t => ts.set i (layoutFn t r)
      let r' : Rect :=
        if horizontal then { r with origin := { r.origin with y := r.origin.y + row_size + gap } }
        else { r with origin := { r.origin with x := r.origin.x + row_size + gap } }
      gridPlaceColumn layoutFn horizontal row_size gap is r' ts'

/-- The outer loop of `GridLayout::layout` over the first row's cells
(`row_ids`, given here by their indices). -/
def gridPlaceRows (layoutFn : LTree → Rect → LTree) (dir : Direction)
    (columns len : Nat) (row_size gap : Int) (grow_space : Size) :
    List Nat → Rect → List LTree → List LTree
  | [], _, ts => ts
  | ri :: ris, rect, ts =>
      match ts[ri]? with
      | Option.none => ts
      | Option.some child =>
          let child_size :=
            if child.style.grow then child.area.measured_size.add grow_space
            else child.area.measured_size
          let (child_rect, rect') := dir.layout_area rect child_size gap
          let child_rect :=
            if dir.horizontal then { child_rect with size := { child_rect.size with height := row_size } }
            else { child_rect with size := { child_rect.size with width := row_size } }
          let ts' := gridPlaceColumn layoutFn dir.horizontal row_size gap
            (stepByIndices ri len columns) child_rect ts
          gridPlaceRows layoutFn dir columns len row_size gap grow_space ris rect' ts'

/-- `GridLayout::layout`. -/
def gridLayoutAlg (layoutFn : LTree → Rect → LTree) (style : Style)
    (cs : List LTree) (rect : Rect) (columns : Nat) : List LTree :=
  if cs.isEmpty then cs
  else
    let len := cs.length
    let rows : Int := ((len + columns - 1) / columns : Nat)
    let dir := style.direction
    let gap := style.gap
    let first_child_size := ((cs.head?).map (fun t => t.area.measured_size)).getD Size.zero
    let (rect, row_size) :=
      if dir.horizontal then
        let row_size := first_child_size.height
        let unusedS := rect.size.height - (row_size * rows + gap * (rows - 1))
        let rect :=
          match style.cross_align with
          | .end' =>
              { rect with origin := { rect.origin with y := rect.origin.y + unusedS },
                          size := { rect.size with height := rect.size.height - unusedS } }
          | .center =>
              { rect with origin := { rect.origin with y := rect.origin.y + Int.tdiv unusedS 2 },
                          size := { rect.size with height := rect.size.height - Int.tdiv unusedS 2 } }
          | _ => rect
        (rect, row_size)
      else
        let row_size := first_child_size.width
        let unusedS := rect.size.width - (row_size * rows + gap * (rows - 1))
        let rect :=
          match style.cross_align with
          | .end' =>
              { rect with origin := { rect.origin with x := rect.origin.x + unusedS },
                          size := { rect.size with width := rect.size.width - unusedS } }
          | .center =>
              { rect with origin := { rect.origin with x := rect.origin.x + Int.tdiv unusedS 2 },
                          size := { rect.size with width := rect.size.width - Int.tdiv unusedS 2 } }
          | _ => rect
        (rect, row_size)
    let row_ids := cs.take (min columns len)
    let used_size := boxUsedSize dir gap row_ids
    let grow_count := countGrow row_ids
    let unused_size := boxUnusedSize dir rect used_size gap
    if grow_count > 0 then
      let grow_space := unused_size.sdiv (grow_count : Int)
      gridPlaceRows layoutFn dir columns len row_size gap grow_space
        (List.range (min columns len)) rect cs
    else
      let rect :=
        match style.main_align with
        | .end' => (dir.layout_area rect unused_size 0).2
        | .center => (dir.layout_area rect (unused_size.sdiv 2) 0).2
        | _ => rect
      gridPlaceRows layoutFn dir columns len row_size gap Size.zero
        (List.range (min columns len)) rect cs

/-- `Layout::layout`: dispatch on the layout kind. -/
def layoutDispatch (layoutFn : LTree → Rect → LTree) (style : Style)
    (cs : List LTree) (rect : Rect) : List LTree :=
  match style.layout with
  | .none => cs
  | .box => boxLayoutAlg layoutFn style cs rect
  | .stack => stackLayoutAlg layoutFn style cs rect
  | .grid columns => gridLayoutAlg layoutFn style cs rect columns

/-- The body of the top-level `layout` (one unfolding of the recursion).
If the rect does not exceed the node's box offsets on either axis the node
is hidden and nothing else is touched; otherwise the area is computed and,
unless the node is hidden, the children are arranged.  (The widget's
`layout` notification mutates only the widget, which is not part of the
modelled state.) -/
def layoutStep (layoutFn : LTree → Rect → LTree) (t : LTree) (rect : Rect) : LTree :=
  match t with
  | .node style area widget cs =>
      let box_offsets := style.box_offsets
      if rect.width ≤ box_offsets.horizontal || rect.height ≤ box_offsets.vertical then
        .node style { area with hidden := true } widget cs
      else
        let rect := rect.inner_rect box_offsets
        let hidden := style.hidden || style.layout == Layout.none
        let area :=
          { area with
            hidden := hidden
            content_rect := rect
            background_rect := rect.outer_rect style.padding }
        if hidden then .node style area widget cs
        else .node style area widget (layoutDispatch layoutFn style cs rect)

/-- `silica_layout::layout`, fuel-indexed. -/
def layoutNode : Nat → LTree → Rect → LTree
  | 0, t, _ => t
  | f + 1, t, rect => layoutStep (layoutNode f) t rect

/-- `silica_layout::measure_and_layout`. -/
def measure_and_layout (fuel : Nat) (t : LTree) (rect : Rect) : LTree :=
  layoutNode fuel (measure fuel t rect.size).1 rect

/-! ## Input dispatch (`silica-gui/src/lib.rs`)

`InputAction`, the event queue, `Gui::dispatch_input_event` and
`Gui::input_event`.  A widget's input handler is abstracted as a function of
the node id and the two transient `GuiInput` flags it can observe change
during a dispatch (`blocked`, `grabbed`); it returns its `InputAction`
together with the units it pushes on the event queue.  The per-event parts
of the `GuiInput` snapshot (pointer, clicked, hotkey, …) are fixed within
one event, so quantifying over one handler function per event covers them. -/

inductive InputAction where
  | pass
  | block
  | grab
deriving Repr, DecidableEq

/-- The queue units that occur in the modelled widgets: a plain callback, a
toggle callback carrying the new flag, and the two units enqueued by an
exclusive group (`deselect_others` with the member index, `on_selected`
with the optional new selection). -/
inductive QueueItem where
  | normalEvent
  | toggleEvent (toggled : Bool)
  | deselectOthers (index : Nat)
  | selectionChanged (param : Option Nat)
deriving Repr, DecidableEq

/-- One event's widget behaviour: node id, `input.blocked`, `input.grabbed`
↦ (returned action, queued units). -/
def Handler : Type := Nat → Bool → Bool → InputAction × List QueueItem

/-- Result of one `Gui::input_event` call, together with the dispatch trace
needed to state the dispatch-order and grab claims: `targets` is the list of
nodes whose handler was invoked, in order, and `trace` pairs them with the
returned actions. -/
structure EventResult where
  targets : List Nat
  trace : List (Nat × InputAction)
  queue : List QueueItem
  blocked : Bool
  grabbedFlag : Bool
  grabbedAfter : Option Nat
  eventReturned : Bool
deriving Repr, DecidableEq

/-- The traversal loop of `Gui::input_event`: `dispatch_input_event` for each
node of `order`, threading `input.blocked` and `grabbed_node`.  A returned
`Block` sets `blocked`; a returned `Grab` sets `blocked` and records the
node as the new grab target. -/
def dispatchList (handler : Handler) (grabbedFlag : Bool) :
    List Nat → Bool → Option Nat → List QueueItem →
    Bool × Option Nat × List QueueItem × List (Nat × InputAction)
  | [], blocked, g, q => (blocked, g, q, [])
  | n :: ns, blocked, g, q =>
      let (act, emitted) := handler n blocked grabbedFlag
      let q := q ++ emitted
      let (blocked, g) :=
        match act with
        | .pass => (blocked, g)
        | .block => (true, g)
        | .grab => (true, Option.some n)
      let (b', g', q', tr) := dispatchList handler grabbedFlag ns blocked g q
      (b', g', q', (n, act) :: tr)

/-- `Gui::input_event` for one event: if a node is grabbed the field is
taken (cleared) and only that node is dispatched with `input.grabbed =
true`; otherwise every node of `order` (the reversed flattened layout list)
is dispatched.  The original event is handed back iff `blocked` stayed
false; the queue is returned in either case. -/
def inputEvent (handler : Handler) (order : List Nat) (grabbed : Option Nat) : EventResult :=
  match grabbed with
  | Option.some n =>
      let (blocked, g, q, tr) := dispatchList handler true [n] false Option.none []
      { targets := [n], trace := tr, queue := q, blocked := blocked,
        grabbedFlag := true, grabbedAfter := g, eventReturned := !blocked }
  | Option.none =>
      let (blocked, g, q, tr) := dispatchList handler false order false Option.none []
      { targets := order, trace := tr, queue := q, blocked := blocked,
        grabbedFlag := false, grabbedAfter := g, eventReturned := !blocked }

/-- A sequence of `Gui::input_event` calls (one handler per event), threading
the persistent `grabbed_node` field. -/
def runEvents (order : List Nat) : List Handler → Option Nat → List EventResult
  | [], _ => []
  | h :: hs, g =>
      let r := inputEvent h order g
      r :: runEvents order hs r.grabbedAfter

/-- The node that ends up in `grabbed_node` after a dispatch: each returned
`Grab` overwrites the field, so the last one wins. -/
def lastGrab (tr : List (Nat × InputAction)) : Option Nat :=
  tr.foldl (fun acc p => if p.2 = InputAction.grab then Option.some p.1 else acc) Option.none

/-! ## Layout-list construction (`Gui::update_layout_data`)

The dispatch order over the tree: `update_layout_data` walks the tree in
pre-order pushing each visible widget-bearing node into the per-layer lists
(`separate_layer` widgets one layer up), and `input_event` iterates
`layouts.iter().flatten().rev()`. -/

/-- A node of the gui tree, reduced to what `update_layout_data` reads: an
id, whether it carries a widget, the widget's `visible()` and
`separate_layer()` answers, and the ordered children. -/
inductive WNode where
  | node (id : Nat) (hasWidget visible sepLayer : Bool) (children : List WNode)

namespace WNode

def id : WNode → Nat
  | .node i _ _ _ _ => i

def children : WNode → List WNode
  | .node _ _ _ _ cs => cs

end WNode

/-- Push an id onto `layouts[layer]`, first growing the list by one empty
layer if `layer` is just past the end (as the source does). -/
def pushAt (ls : List (List Nat)) (layer : Nat) (id : Nat) : List (List Nat) :=
  let ls := if ls.length ≤ layer then ls ++ [[]] else ls
  ls.set layer (ls.getD layer [] ++ [id])

mutual

/-- `Gui::update_layout_data`, reduced to the ids it pushes: a widget-bearing
node is pushed (at the next layer if `separate_layer`) before its children
are visited; an invisible widget prunes its whole subtree. -/
def updateLayoutData : WNode → Nat → List (List Nat) → List (List Nat)
  | .node i hasW vis sep cs, layer, ls =>
      let visible := !hasW || vis
      let (layer, ls) :=
        if hasW && vis then
          let layer := if sep then layer + 1 else layer
          (layer, pushAt ls layer i)
        else (layer, ls)
      if visible then updateLayoutDataList cs layer ls else ls

def updateLayoutDataList : List WNode → Nat → List (List Nat) → List (List Nat)
  | [], _, ls => ls
  | t :: ts, layer, ls => updateLayoutDataList ts layer (updateLayoutData t layer ls)

end

/-- The node order in which `Gui::input_event` offers an event when nothing
is grabbed: `layouts.iter().flatten().rev()`. -/
def dispatchOrderOf (t : WNode) : List Nat :=
  ((updateLayoutData t 0 []).flatten).reverse

mutual

/-- The ids of the widget-bearing visible nodes in pre-order (node before
its children, children in list order), with invisible-widget subtrees
pruned. -/
def preorderWidgets : WNode → List Nat
  | .node i hasW vis _ cs =>
      if hasW && !vis then []
      else (if hasW then [i] else []) ++ preorderWidgetsList cs

def preorderWidgetsList : List WNode → List Nat
  | [] => []
  | t :: ts => preorderWidgets t ++ preorderWidgetsList ts

end

mutual

/-- Every widget in the tree is visible. -/
def allVisible : WNode → Bool
  | .node _ hasW vis _ cs => (!hasW || vis) && allVisibleList cs

def allVisibleList : List WNode → Bool
  | [] => true
  | t :: ts => allVisible t && allVisibleList ts

end

mutual

/-- No widget in the tree requests a separate layer. -/
def noSepLayer : WNode → Bool
  | .node _ _ _ sep cs => !sep && noSepLayerList cs

def noSepLayerList : List WNode → Bool
  | [] => true
  | t :: ts => noSepLayer t && noSepLayerList ts

end

mutual

/-- One node's part of the claimed dispatch-order property (see
`childOrderRespected`). -/
def checkOrder (order : List Nat) : WNode → Bool
  | .node i hasW _ _ cs =>
      let pos := fun j => order.indexOf j
      let subs := cs.map (fun c => preorderWidgets c)
      let pairsOk :=
        (List.range cs.length).all fun a =>
          (List.range cs.length).all fun b =>
            !(a < b) ||
              ((subs.getD a []).all fun u =>
                (subs.getD b []).all fun v =>
                  !(order.contains u) || !(order.contains v) || decide (pos v < pos u))
      let beforeSelf :=
        !hasW ||
          ((subs.foldl (· ++ ·) []).all fun u =>
            !(order.contains u) || !(order.contains i) || decide (pos u < pos i))
      pairsOk && beforeSelf && checkOrderList order cs

def checkOrderList (order : List Nat) : List WNode → Bool
  | [] => true
  | t :: ts => checkOrder order t && checkOrderList order ts

end

/-- The order property claimed for dispatch: for every node of the tree, the
widgets of a later child's subtree are all offered the event before those of
an earlier child's subtree, and all of a node's children's widgets are
offered before the node's own widget.  Positions are indices in the dispatch
order (ids assumed distinct, as they are handles). -/
def childOrderRespected (t : WNode) : Bool :=
  checkOrder (dispatchOrderOf t) t

/-! ## Buttons and exclusive groups (`silica-gui/src/widget/button.rs`)

`ButtonState::handle_input` and `Button::input`.  The `GuiInput` snapshot is
modelled with the fields the button reads; the `EventFn`s of a button and of
an exclusive group are represented by the tagged queue units they enqueue
(`QueueItem`), and the group by its `allow_deselect` flag plus the member's
index. -/

structure Hotkey where
  key : Char
  shift : Bool
  ctrl : Bool
  alt : Bool
deriving Repr, DecidableEq

/-- The `GuiInput` snapshot as seen by a widget's input handler. -/
structure GuiInput where
  blocked : Bool
  grabbed : Bool
  pointer : Point
  button_pressed : Bool
  clicked : Bool
  double_clicked : Bool
  hotkey : Option Hotkey
deriving Repr, DecidableEq

inductive ButtonState where
  | normal
  | hover
  | press
  | disable
deriving Repr, DecidableEq

structure ButtonStateInput where
  action : InputAction
  changed : Bool
  clicked : Bool
deriving Repr, DecidableEq

namespace ButtonState

/-- `ButtonState::handle_input`: returns the updated state and the
`ButtonStateInput` summary. -/
def handle_input (s : ButtonState) (input : GuiInput) (hotkey : Option Hotkey)
    (rect : Rect) : ButtonState × ButtonStateInput :=
  let pointer_over := !input.blocked && rect.containsP input.pointer
  let action := if pointer_over then InputAction.block else InputAction.pass
  if s = .disable then (s, ⟨action, false, false⟩)
  else
    let hotkey_pressed := input.hotkey.isSome && input.hotkey = hotkey
    if !hotkey_pressed && !input.grabbed && !pointer_over then
      if s ≠ .normal then (.normal, ⟨InputAction.pass, true, false⟩)
      else (s, ⟨InputAction.pass, false, false⟩)
    else
      let state := if hotkey_pressed || input.button_pressed then ButtonState.press
                   else if pointer_over then ButtonState.hover
                   else ButtonState.normal
      let changed := s ≠ state
      let clicked := state = .press && (hotkey_pressed || input.clicked)
      (state, ⟨action, changed, clicked⟩)

end ButtonState

/-- A button's `on_clicked` wiring: `ButtonEvent`.  The exclusive variant
carries the group's `allow_deselect` flag and the member's index (the
`EventFn`s become the queue units they enqueue). -/
inductive ButtonEvent where
  | normal
  | toggle
  | exclusive (allow_deselect : Bool) (index : Nat)
deriving Repr, DecidableEq

/-- The executor as a widget sees it: the queued units plus the redraw flag. -/
structure EventExecutor where
  queue : List QueueItem
  draw_dirty : Bool
deriving Repr, DecidableEq

structure Button where
  state : ButtonState
  hotkey : Option Hotkey
  toggled : Bool
  on_clicked : ButtonEvent
deriving Repr, DecidableEq

namespace Button

/-- `Button::input` (`impl Widget for Button`). -/
def input (b : Button) (input : GuiInput) (executor : EventExecutor) (rect : Rect) :
    Button × EventExecutor × InputAction :=
  let (state, state_input) := b.state.handle_input input b.hotkey rect
  let b := { b with state := state }
  let executor :=
    if state_input.changed then { executor with draw_dirty := true } else executor
  if state_input.clicked then
    match b.on_clicked with
    | .normal =>
        (b, { executor with queue := executor.queue ++ [QueueItem.normalEvent] }, state_input.action)
    | .toggle =>
        let b := { b with toggled := !b.toggled }
        (b, { executor with queue := executor.queue ++ [QueueItem.toggleEvent b.toggled] },
         state_input.action)
    | .exclusive allow_deselect index =>
        if !b.toggled || allow_deselect then
          let b := { b with toggled := !b.toggled }
          let items :=
            if b.toggled then
              [QueueItem.deselectOthers index, QueueItem.selectionChanged (Option.some index)]
            else [QueueItem.selectionChanged Option.none]
          (b, { executor with queue := executor.queue ++ items }, state_input.action)
        else (b, executor, state_input.action)
  else (b, executor, state_input.action)

end Button

/-! ## The lazy layout driver (C8)

The `needs_layout`-gated `layout()` entry point.  Modelled from the spec:
the driver that owns the dirty flag (`Gui::layout` in the source gates on
the layout library's own dirty tracking, which lives outside this
repository; the silica driver used by `silica-window` — `needs_layout()` /
`set_area` — is not under `src/`).  Per the spec, every style or topology
mutation sets the flag, `layout()` recomputes the whole tree from the root
iff the flag is set and clears it, and the measure/arrange body is
`measure_and_layout` from `silica-layout`. -/

structure GuiL where
  tree : LTree
  area : Rect
  needs_layout : Bool

namespace GuiL

/-- `layout()`: if the flag is clear, do nothing; otherwise run
`measure_and_layout` on the whole tree and clear the flag.  Also returns
whether the measure/arrange traversal ran. -/
def layout (fuel : Nat) (g : GuiL) : GuiL × Bool :=
  if g.needs_layout then
    ({ g with tree := measure_and_layout fuel g.tree g.area, needs_layout := false }, true)
  else (g, false)

end GuiL

/-! ## Derived observation functions

Projections of the algorithms used to state the claims: the main/cross axis
components of a size, the list of rects a box container hands to its
children, and the distance between consecutive child rects. -/

/-- The main-axis component of a size for a direction. -/
def mainSize (dir : Direction) (s : Size) : Int :=
  if dir.horizontal then s.width else s.height

/-- The cross-axis component of a size for a direction. -/
def crossSize (dir : Direction) (s : Size) : Int :=
  if dir.horizontal then s.height else s.width

/-- The signed gap between two consecutively placed child rects, measured
from the trailing edge of the earlier child to the leading edge of the later
one along the direction of placement. -/
def gapBetween (dir : Direction) (a b : Rect) : Int :=
  match dir with
  | .row => b.min_x - a.max_x
  | .column => b.min_y - a.max_y
  | .rowReverse => a.min_x - b.max_x
  | .columnReverse => a.min_y - b.max_y

/-- The rects the placement loop of `BoxLayout::layout` hands to the
children, in order (same carving as `boxPlace`, without recursing). -/
def boxChildRects (dir : Direction) (cross_align : Align) (gap : Int) (grow_space : Size) :
    List LTree → Rect → List Rect
  | [], _ => []
  | t :: ts, rect =>
      let child_size :=
        if t.style.grow then t.area.measured_size.add grow_space else t.area.measured_size
      let (child_rect, rect') := dir.layout_area rect child_size gap
      cross_align.align_area (!dir.horizontal) child_rect child_size ::
        boxChildRects dir cross_align gap grow_space ts rect'

/-- The child rects produced by `BoxLayout::layout` (mirroring
`boxLayoutAlg`, which applies the recursive arrange to exactly these
rects). -/
def boxLayoutRects (style : Style) (cs : List LTree) (rect : Rect) : List Rect :=
  let dir := style.direction
  let used_size := boxUsedSize dir style.gap cs
  let grow_count := countGrow cs
  let unused_size := boxUnusedSize dir rect used_size style.gap
  if grow_count > 0 then
    let grow_space := unused_size.sdiv (grow_count : Int)
    boxChildRects dir style.cross_align style.gap grow_space cs rect
  else
    let rect :=
      match style.main_align with
      | .end' => (dir.layout_area rect unused_size 0).2
      | .center => (dir.layout_area rect (unused_size.sdiv 2) 0).2
      | _ => rect
    boxChildRects dir style.cross_align style.gap Size.zero cs rect

/-- Sum of the children's measured main-axis sizes. -/
def sumMainMeasured (dir : Direction) (cs : List LTree) : Int :=
  (cs.map (fun t => mainSize dir t.area.measured_size)).sum

/-! ## Concrete configurations used by the examples -/

/-- A leaf with `grow = true` and otherwise default style. -/
def growLeaf : LTree := .node { Style.default with grow := true } Area.new Option.none []

/-- A leaf with a fixed measured size already stored in its area. -/
def fixedLeaf (w h : Int) : LTree :=
  .node Style.default { Area.new with measured_size := ⟨w, h⟩ } Option.none []

/-- The 100×100 window rect. -/
def rect100 : Rect := ⟨Point.origin, ⟨100, 100⟩⟩

/-- A default (row, gap 0) box container over the given children. -/
def boxOver (cs : List LTree) : LTree := .node Style.default Area.new Option.none cs

/-- The container with children `[A, B, C]` of the dispatch-order example
(container id 0 with its own widget, children ids 1, 2, 3). -/
def abcTree : WNode :=
  .node 0 true true false
    [.node 1 true true false [], .node 2 true true false [], .node 3 true true false []]

/-- A container whose first child's widget requests a separate layer. -/
def sepLayerTree : WNode :=
  .node 0 true true false [.node 1 true true true [], .node 2 true true false []]

/-- A handler that always grabs (and queues nothing). -/
def grabHandler : Handler := fun _ _ _ => (InputAction.grab, [])

/-- A handler that always passes (and queues nothing). -/
def passHandler : Handler := fun _ _ _ => (InputAction.pass, [])

instance : Inhabited EventResult :=
  ⟨{ targets := [], trace := [], queue := [], blocked := false,
     grabbedFlag := false, grabbedAfter := Option.none, eventReturned := true }⟩

/-! # Theorems -/

/-! ## C8 — lazy layout is idempotent -/

/-- C8: calling `layout()` twice in succession with no intervening mutation
leaves the whole state (hence every node's `Area`) identical after the
second call, the second call performs no measure/arrange traversal, and the
dirty flag is false after the first call. -/
theorem C8_layout_idempotent (fuel : Nat) (g : GuiL) :
    (GuiL.layout fuel (GuiL.layout fuel g).1).1 = (GuiL.layout fuel g).1 ∧
    (GuiL.layout fuel (GuiL.layout fuel g).1).2 = false ∧
    (GuiL.layout fuel g).1.needs_layout = false := by
  by_cases h : g.needs_layout <;> simp [GuiL.layout, h]

/-! ## C3 — the measure pass stores the clamped max of aggregate and intrinsic size -/

/-- C3: for every node, `measure` returns, and stores in
`Area.measured_size`, `apply_min_max(max(algorithm aggregate, widget
intrinsic size)) + box_size`, the widget term being present only when the
node has a widget. -/
theorem C3_measure_stores_clamped_max (f : Nat) (style : Style) (area : Area)
    (w : Option (Size → Size)) (cs : List LTree) (avail : Size) :
    (measure (f + 1) (.node style area w cs) avail).2 =
      (style.apply_min_max
        (match w with
         | Option.some wf =>
             ((measureDispatch (measure f) style cs
                 (style.apply_min_max (avail.sub style.box_size))).2).maxS
               (wf (style.apply_min_max (avail.sub style.box_size)))
         | Option.none =>
             (measureDispatch (measure f) style cs
                 (style.apply_min_max (avail.sub style.box_size))).2)).add style.box_size ∧
    ((measure (f + 1) (.node style area w cs) avail).1).area.measured_size =
      (measure (f + 1) (.node style area w cs) avail).2 := by
  cases hmd : measureDispatch (measure f) style cs
      (style.apply_min_max (avail.sub style.box_size)) with
  | mk cs' alg => cases w <;> simp [measure, measureStep, hmd, LTree.area]

/-! ## C2 — the hidden computation at arrange time

The source hides a node when the rect does not strictly exceed the box
offsets (`<=` in the code), not only when it is strictly smaller; at
equality the claimed formula `hidden = Style.hidden || layout_kind == None`
does not apply. -/

/-- C2 counterexample: a 0×0 rect with all-zero box offsets is not smaller
than the offsets on either axis, `Style.hidden` is false and the layout kind
is `Box`, yet arrange marks the node hidden. -/
theorem C2_counterexample_boundary :
    ¬ ((⟨Point.origin, Size.zero⟩ : Rect).width < Style.default.box_offsets.horizontal ∨
       (⟨Point.origin, Size.zero⟩ : Rect).height < Style.default.box_offsets.vertical) ∧
    (Style.default.hidden || Style.default.layout == Layout.none) = false ∧
    (layoutNode 1 (.node Style.default Area.new Option.none [])
        ⟨Point.origin, Size.zero⟩).area.hidden = true := by
  decide

/-- C2 (amended: "smaller than" → "smaller than or equal to"): if the rect
does not strictly exceed the node's box offsets on either axis, the node is
marked hidden and arrange does not recurse into its children; otherwise
`hidden = Style.hidden || layout_kind == None`, and when that is true the
children are likewise left untouched by the arrange pass. -/
theorem C2_arrange_hidden (f : Nat) (style : Style) (area : Area)
    (w : Option (Size → Size)) (cs : List LTree) (rect : Rect) :
    ((rect.width ≤ style.box_offsets.horizontal ∨ rect.height ≤ style.box_offsets.vertical) →
      (layoutNode (f + 1) (.node style area w cs) rect).area.hidden = true ∧
      (layoutNode (f + 1) (.node style area w cs) rect).children = cs) ∧
    (style.box_offsets.horizontal < rect.width → style.box_offsets.vertical < rect.height →
      (layoutNode (f + 1) (.node style area w cs) rect).area.hidden =
        (style.hidden || style.layout == Layout.none) ∧
      ((style.hidden || style.layout == Layout.none) = true →
        (layoutNode (f + 1) (.node style area w cs) rect).children = cs)) := by
  constructor
  · intro h
    have hb : (decide (rect.width ≤ style.box_offsets.horizontal) ||
        decide (rect.height ≤ style.box_offsets.vertical)) = true := by
      rcases h with h | h <;> simp [h]
    simp [layoutNode, layoutStep, hb, LTree.area, LTree.children]
  · intro h1 h2
    have hb : (decide (rect.width ≤ style.box_offsets.horizontal) ||
        decide (rect.height ≤ style.box_offsets.vertical)) = false := by
      simp [not_le.mpr h1, not_le.mpr h2]
    by_cases hh : (style.hidden || style.layout == Layout.none) = true
    · simp [layoutNode, layoutStep, hb, hh, LTree.area, LTree.children]
    · simp only [Bool.not_eq_true] at hh
      simp [layoutNode, layoutStep, hb, hh, LTree.area, LTree.children]

/-- C2 witness: the amended theorem applied at the boundary rect (hidden)
and at a comfortably large rect (not hidden). -/
theorem C2_arrange_hidden_witness :
    (layoutNode 1 (.node Style.default Area.new Option.none [])
        ⟨Point.origin, Size.zero⟩).area.hidden = true ∧
    (layoutNode 1 (.node Style.default Area.new Option.none []) rect100).area.hidden = false := by
  constructor
  · exact ((C2_arrange_hidden 0 Style.default Area.new Option.none []
      ⟨Point.origin, Size.zero⟩).1 (Or.inl (by decide))).1
  · have h := (C2_arrange_hidden 0 Style.default Area.new Option.none [] rect100).2
      (by decide) (by decide)
    rw [h.1]; decide

/-! ## Dispatch-loop lemmas (shared by C4 and C10) -/

/-- Once `input.blocked` is set it stays set for the rest of the loop. -/
lemma dispatchList_blocked_mono (h : Handler) (gf : Bool) :
    ∀ (ns : List Nat) (g : Option Nat) (q : List QueueItem),
      (dispatchList h gf ns true g q).1 = true := by
  intro ns
  induction ns with
  | nil => intro g q; rfl
  | cons n ns ih =>
      intro g q
      rcases hh : h n true gf with ⟨act, em⟩
      cases act <;> simp [dispatchList, hh, ih]

/-- `blocked` comes out true iff it went in true or some visited handler
returned `Block` or `Grab`. -/
lemma dispatchList_blocked_iff (h : Handler) (gf : Bool) :
    ∀ (ns : List Nat) (b : Bool) (g : Option Nat) (q : List QueueItem),
      ((dispatchList h gf ns b g q).1 = true ↔
        b = true ∨ ∃ p ∈ (dispatchList h gf ns b g q).2.2.2, p.2 ≠ InputAction.pass) := by
  intro ns
  induction ns with
  | nil => intro b g q; simp [dispatchList]
  | cons n ns ih =>
      intro b g q
      rcases hh : h n b gf with ⟨act, em⟩
      cases act with
      | pass => simp [dispatchList, hh, ih]
      | block => simp [dispatchList, hh, dispatchList_blocked_mono]
      | grab => simp [dispatchList, hh, dispatchList_blocked_mono]

/-- The grab field coming out of the loop is the fold of the trace's `Grab`
returns over the incoming field (each `Grab` overwrites it). -/
lemma dispatchList_grab_fold (h : Handler) (gf : Bool) :
    ∀ (ns : List Nat) (b : Bool) (g : Option Nat) (q : List QueueItem),
      (dispatchList h gf ns b g q).2.1 =
        (dispatchList h gf ns b g q).2.2.2.foldl
          (fun acc p => if p.2 = InputAction.grab then Option.some p.1 else acc) g := by
  intro ns
  induction ns with
  | nil => intro b g q; simp [dispatchList]
  | cons n ns ih =>
      intro b g q
      rcases hh : h n b gf with ⟨act, em⟩
      cases act <;> simp [dispatchList, hh, ih]

/-! ## C10 — the unconsumed event is returned iff nothing blocked -/

/-- C10: the original input event is handed back iff every handler visited
during the dispatch returned `Pass` (equivalently, iff the transient
`blocked` flag stayed false); otherwise it is replaced by nothing.  The
queued-event executor (the `queue` field of the result) is part of the
result in both cases. -/
theorem C10_unconsumed_event (handler : Handler) (order : List Nat) (g : Option Nat) :
    ((inputEvent handler order g).eventReturned = true ↔
      ∀ p ∈ (inputEvent handler order g).trace, p.2 = InputAction.pass) ∧
    (inputEvent handler order g).eventReturned = !(inputEvent handler order g).blocked := by
  cases g with
  | none =>
      refine ⟨?_, rfl⟩
      have hb := dispatchList_blocked_iff handler false order false Option.none []
      simp only [inputEvent]
      constructor
      · intro he p hp
        by_contra hne
        have hblk : (dispatchList handler false order false Option.none []).1 = true :=
          hb.mpr (Or.inr ⟨p, hp, hne⟩)
        simp [hblk] at he
      · intro hall
        have : ¬ (dispatchList handler false order false Option.none []).1 = true := by
          intro hc
          rcases hb.mp hc with hF | ⟨p, hp, hne⟩
          · exact absurd hF (by decide)
          · exact hne (hall p hp)
        simp [Bool.not_eq_true] at this
        simp [this]
  | some n =>
      refine ⟨?_, rfl⟩
      have hb := dispatchList_blocked_iff handler true [n] false Option.none []
      simp only [inputEvent]
      constructor
      · intro he p hp
        by_contra hne
        have hblk : (dispatchList handler true [n] false Option.none []).1 = true :=
          hb.mpr (Or.inr ⟨p, hp, hne⟩)
        simp [hblk] at he
      · intro hall
        have : ¬ (dispatchList handler true [n] false Option.none []).1 = true := by
          intro hc
          rcases hb.mp hc with hF | ⟨p, hp, hne⟩
          · exact absurd hF (by decide)
          · exact hne (hall p hp)
        simp [Bool.not_eq_true] at this
        simp [this]

/-- C10 witness: with one passing and one blocking handler over a two-node
traversal, the event comes back in the first case and is consumed in the
second. -/
theorem C10_unconsumed_event_witness :
    (inputEvent passHandler [2, 1] Option.none).eventReturned = true ∧
    (inputEvent (fun _ _ _ => (InputAction.block, [])) [2, 1] Option.none).eventReturned = false := by
  constructor
  · exact (C10_unconsumed_event passHandler [2, 1] Option.none).1.mpr (by decide)
  · have h := (C10_unconsumed_event (fun _ _ _ => (InputAction.block, [])) [2, 1] Option.none).2
    rw [h]; decide

/-! ## C6 — exclusive-group buttons -/

/-- C6: on a click of an exclusive-group member: if it is already selected
and the group disallows deselection nothing happens (no toggle, no queued
units); otherwise the toggled flag flips, and the handler enqueues the
deselect-others unit followed by the selection-changed unit carrying the
member's index when it became selected, or only the selection-changed unit
carrying nothing when it became deselected. -/
theorem C6_exclusive_click (state : ButtonState) (hk : Option Hotkey) (tog ad : Bool)
    (idx : Nat) (input : GuiInput) (ex : EventExecutor) (rect : Rect)
    (hclick : (state.handle_input input hk rect).2.clicked = true) :
    ((tog = true ∧ ad = false) →
      (Button.input ⟨state, hk, tog, .exclusive ad idx⟩ input ex rect).1.toggled = tog ∧
      (Button.input ⟨state, hk, tog, .exclusive ad idx⟩ input ex rect).2.1.queue = ex.queue) ∧
    (¬(tog = true ∧ ad = false) →
      (Button.input ⟨state, hk, tog, .exclusive ad idx⟩ input ex rect).1.toggled = !tog ∧
      (Button.input ⟨state, hk, tog, .exclusive ad idx⟩ input ex rect).2.1.queue =
        ex.queue ++ (if tog then [QueueItem.selectionChanged Option.none]
                     else [QueueItem.deselectOthers idx,
                           QueueItem.selectionChanged (Option.some idx)])) := by
  rcases hsi : state.handle_input input hk rect with ⟨st, si⟩
  have hc : si.clicked = true := by rw [hsi] at hclick; exact hclick
  constructor
  · rintro ⟨h1, h2⟩
    subst h1; subst h2
    simp [Button.input, hsi, hc]
    cases si.changed <;> simp
  · intro hn
    cases tog with
    | false =>
        simp [Button.input, hsi, hc]
        cases si.changed <;> simp
    | true =>
        cases ad with
        | false => exact absurd ⟨rfl, rfl⟩ hn
        | true =>
            simp [Button.input, hsi, hc]
            cases si.changed <;> simp

/-- C6 witness: a fresh click selecting an unselected member of a
non-deselectable group enqueues exactly the deselect-others unit followed by
the selection-changed unit with the member's index. -/
theorem C6_exclusive_click_witness :
    (Button.input ⟨ButtonState.normal, Option.none, false, ButtonEvent.exclusive false 1⟩
        ⟨false, false, ⟨5, 5⟩, true, true, false, Option.none⟩ ⟨[], false⟩
        ⟨⟨0, 0⟩, ⟨10, 10⟩⟩).2.1.queue =
      [QueueItem.deselectOthers 1, QueueItem.selectionChanged (Option.some 1)] := by
  have h := C6_exclusive_click ButtonState.normal Option.none false false 1
    ⟨false, false, ⟨5, 5⟩, true, true, false, Option.none⟩ ⟨[], false⟩
    ⟨⟨0, 0⟩, ⟨10, 10⟩⟩ (by decide)
  have h2 := (h.2 (by simp)).2
  simpa using h2

/-! ## Box-layout lemmas (shared by C1 and C9) -/

/-- Cross-axis alignment with the horizontal flag off leaves the x origin
untouched. -/
lemma align_area_false_ox (a : Align) (r : Rect) (s : Size) :
    (a.align_area false r s).origin.x = r.origin.x := by
  cases a <;> simp [Align.align_area]

/-- Cross-axis alignment with the horizontal flag off leaves the width
untouched. -/
lemma align_area_false_w (a : Align) (r : Rect) (s : Size) :
    (a.align_area false r s).size.width = r.size.width := by
  cases a <;> simp [Align.align_area]

/-- Cross-axis alignment with the horizontal flag on leaves the y origin
untouched. -/
lemma align_area_true_oy (a : Align) (r : Rect) (s : Size) :
    (a.align_area true r s).origin.y = r.origin.y := by
  cases a <;> simp [Align.align_area]

/-- Cross-axis alignment with the horizontal flag on leaves the height
untouched. -/
lemma align_area_true_h (a : Align) (r : Rect) (s : Size) :
    (a.align_area true r s).size.height = r.size.height := by
  cases a <;> simp [Align.align_area]

/-- `boxPlace` applies the recursive arrange to exactly the rects listed by
`boxChildRects`. -/
lemma boxPlace_eq_zipWith (lf : LTree → Rect → LTree) (dir : Direction) (ca : Align)
    (gap : Int) (gs : Size) :
    ∀ (cs : List LTree) (rect : Rect),
      boxPlace lf dir ca gap gs cs rect =
        List.zipWith lf cs (boxChildRects dir ca gap gs cs rect) := by
  intro cs
  induction cs with
  | nil => intro rect; rfl
  | cons t ts ih =>
      intro rect
      rcases hla : dir.layout_area rect
          (if t.style.grow then t.area.measured_size.add gs else t.area.measured_size) gap
        with ⟨cr, rect'⟩
      simp [boxPlace, boxChildRects, hla, ih]

/-- `BoxLayout::layout` is the `zipWith` of the recursive arrange over the
rects of `boxLayoutRects`. -/
lemma boxLayoutAlg_eq_zipWith (lf : LTree → Rect → LTree) (style : Style)
    (cs : List LTree) (rect : Rect) :
    boxLayoutAlg lf style cs rect = List.zipWith lf cs (boxLayoutRects style cs rect) := by
  unfold boxLayoutAlg boxLayoutRects
  by_cases hg : countGrow cs > 0
  · simp [hg, boxPlace_eq_zipWith]
  · cases style.main_align <;> simp [hg, boxPlace_eq_zipWith]

lemma boxChildRects_length (dir : Direction) (ca : Align) (gap : Int) (gs : Size) :
    ∀ (cs : List LTree) (rect : Rect),
      (boxChildRects dir ca gap gs cs rect).length = cs.length := by
  intro cs
  induction cs with
  | nil => intro rect; rfl
  | cons t ts ih =>
      intro rect
      rcases hla : dir.layout_area rect
          (if t.style.grow then t.area.measured_size.add gs else t.area.measured_size) gap
        with ⟨cr, rect'⟩
      simp [boxChildRects, hla, ih]

/-- Each child rect's main-axis size is the main-axis size the placement
loop computed for it (measured size, plus the grow space for growers). -/
lemma boxChildRects_getD_main (dir : Direction) (ca : Align) (gap : Int) (gs : Size) :
    ∀ (cs : List LTree) (rect : Rect) (i : Nat), i < cs.length →
      mainSize dir ((boxChildRects dir ca gap gs cs rect).getD i default).size =
        mainSize dir (if (cs.getD i default).style.grow
          then (cs.getD i default).area.measured_size.add gs
          else (cs.getD i default).area.measured_size) := by
  intro cs
  induction cs with
  | nil => intro rect i hi; simp at hi
  | cons t ts ih =>
      intro rect i hi
      cases i with
      | zero =>
          cases dir with
          | row =>
              simp [boxChildRects, Direction.layout_area, mainSize, Direction.horizontal,
                align_area_false_w]
          | rowReverse =>
              simp [boxChildRects, Direction.layout_area, mainSize, Direction.horizontal,
                align_area_false_w]
          | column =>
              simp [boxChildRects, Direction.layout_area, mainSize, Direction.horizontal,
                align_area_true_h]
          | columnReverse =>
              simp [boxChildRects, Direction.layout_area, mainSize, Direction.horizontal,
                align_area_true_h]
      | succ j =>
          rcases hla : dir.layout_area rect
              (if t.style.grow then t.area.measured_size.add gs else t.area.measured_size) gap
            with ⟨cr, rect'⟩
          have := ih rect' j (Nat.lt_of_succ_lt_succ hi)
          simpa [boxChildRects, hla] using this

/-- The main component of the `used_size` accumulation is the sum of the
children's measured main-axis sizes plus one gap per child. -/
lemma foldl_width_sum (gap : Int) :
    ∀ (cs : List LTree) (init : Size),
      (cs.foldl (fun used t =>
        { used with width := used.width + (t.area.measured_size.width + gap) }) init).width =
        init.width + (cs.map (fun t => t.area.measured_size.width)).sum +
          (cs.length : Int) * gap := by
  intro cs
  induction cs with
  | nil => intro init; simp
  | cons t ts ih =>
      intro init
      simp only [List.foldl_cons, ih, List.map_cons, List.sum_cons, List.length_cons]
      push_cast
      ring

lemma foldl_height_sum (gap : Int) :
    ∀ (cs : List LTree) (init : Size),
      (cs.foldl (fun used t =>
        { used with height := used.height + (t.area.measured_size.height + gap) }) init).height =
        init.height + (cs.map (fun t => t.area.measured_size.height)).sum +
          (cs.length : Int) * gap := by
  intro cs
  induction cs with
  | nil => intro init; simp
  | cons t ts ih =>
      intro init
      simp only [List.foldl_cons, ih, List.map_cons, List.sum_cons, List.length_cons]
      push_cast
      ring

/-- The main component of the `used_size` accumulation is the sum of the
children's measured main-axis sizes plus one gap per child. -/
lemma boxUsedSize_main (dir : Direction) (gap : Int) (cs : List LTree) :
    mainSize dir (boxUsedSize dir gap cs) =
      sumMainMeasured dir cs + (cs.length : Int) * gap := by
  cases hdir : dir.horizontal with
  | true =>
      have h := foldl_width_sum gap cs Size.zero
      simp only [boxUsedSize, hdir, ite_true]
      simp [mainSize, hdir, sumMainMeasured, Size.zero] at h ⊢
      omega
  | false =>
      have h := foldl_height_sum gap cs Size.zero
      simp only [boxUsedSize, hdir, Bool.false_eq_true, ite_false]
      simp [mainSize, hdir, sumMainMeasured, Size.zero] at h ⊢
      omega

/-- The main component of `unused_size`. -/
lemma boxUnusedSize_main (dir : Direction) (rect : Rect) (used : Size) (gap : Int) :
    mainSize dir (boxUnusedSize dir rect used gap) =
      max (mainSize dir rect.size - mainSize dir used + gap) 0 := by
  cases hdir : dir.horizontal <;> simp [boxUnusedSize, mainSize, hdir]

/-- The main component of a scalar size division. -/
lemma sdiv_main (dir : Direction) (s : Size) (k : Int) :
    mainSize dir (s.sdiv k) = Int.tdiv (mainSize dir s) k := by
  cases hdir : dir.horizontal <;> simp [Size.sdiv, mainSize, hdir]

/-- The main component of a componentwise size addition. -/
lemma add_main (dir : Direction) (a b : Size) :
    mainSize dir (a.add b) = mainSize dir a + mainSize dir b := by
  cases hdir : dir.horizontal <;> simp [Size.add, mainSize, hdir]

/-- Consecutive child rects of a box placement are separated by exactly the
gap along the direction of placement. -/
lemma boxChildRects_pair_gap (dir : Direction) (ca : Align) (gap : Int) (gs : Size) :
    ∀ (cs : List LTree) (rect : Rect) (i : Nat), i + 1 < cs.length →
      gapBetween dir ((boxChildRects dir ca gap gs cs rect).getD i default)
        ((boxChildRects dir ca gap gs cs rect).getD (i + 1) default) = gap := by
  intro cs
  induction cs with
  | nil => intro rect i hi; simp at hi
  | cons t ts ih =>
      intro rect i hi
      cases i with
      | zero =>
          cases ts with
          | nil => simp at hi
          | cons u ts' =>
              cases dir <;>
                · simp only [boxChildRects, Direction.layout_area, Direction.horizontal,
                    Bool.not_true, Bool.not_false, List.getD_cons_zero,
                    List.getD_cons_succ, gapBetween, Rect.min_x, Rect.max_x, Rect.min_y,
                    Rect.max_y, Rect.width, Rect.height, align_area_false_ox,
                    align_area_false_w, align_area_true_oy, align_area_true_h]
                  omega
      | succ j =>
          rcases hla : dir.layout_area rect
              (if t.style.grow then t.area.measured_size.add gs else t.area.measured_size) gap
            with ⟨cr, rect'⟩
          simp only [boxChildRects, hla, List.getD_cons_succ]
          exact ih rect' j (Nat.lt_of_succ_lt_succ hi)

/-! ## C1 — grow distribution in Box containers -/

/-- C1: in a Box container with at least one grower, arrange applies the
recursive layout to exactly the rects of `boxLayoutRects`; each child's
main-axis allotment is its measured main-axis size plus, for growers,
`max(0, available − (sum of measured sizes + gap·(n−1))) / grow_count`
(Rust integer division, remainder unused); `main_align` has no effect; the
100/2-grower example splits 50/50 and the 100/3-grower example 33/33/33. -/
theorem C1_box_grow_distribution (lf : LTree → Rect → LTree) (style : Style)
    (cs : List LTree) (rect : Rect) (hg : 0 < countGrow cs) :
    (boxLayoutAlg lf style cs rect = List.zipWith lf cs (boxLayoutRects style cs rect)) ∧
    (∀ i, i < cs.length →
      mainSize style.direction ((boxLayoutRects style cs rect).getD i default).size =
        mainSize style.direction (cs.getD i default).area.measured_size +
          (if (cs.getD i default).style.grow then
            Int.tdiv
              (max (mainSize style.direction rect.size -
                (sumMainMeasured style.direction cs +
                  style.gap * ((cs.length : Int) - 1))) 0)
              (countGrow cs : Int)
          else 0)) ∧
    (∀ a b : Align,
      boxLayoutAlg lf { style with main_align := a } cs rect =
        boxLayoutAlg lf { style with main_align := b } cs rect) ∧
    ((measure_and_layout 2 (boxOver [growLeaf, growLeaf]) rect100).children.map
        (fun t => t.area.content_rect.size.width) = [50, 50]) ∧
    ((measure_and_layout 2 (boxOver [growLeaf, growLeaf, growLeaf]) rect100).children.map
        (fun t => t.area.content_rect.size.width) = [33, 33, 33]) := by
  refine ⟨boxLayoutAlg_eq_zipWith lf style cs rect, ?_, ?_, by decide, by decide⟩
  · intro i hi
    have hrects : boxLayoutRects style cs rect =
        boxChildRects style.direction style.cross_align style.gap
          ((boxUnusedSize style.direction rect
            (boxUsedSize style.direction style.gap cs) style.gap).sdiv (countGrow cs : Int))
          cs rect := by
      simp [boxLayoutRects, hg]
    rw [hrects, boxChildRects_getD_main _ _ _ _ cs rect i hi]
    by_cases hgrow : (cs.getD i default).style.grow
    · rw [if_pos hgrow, if_pos hgrow, add_main, sdiv_main, boxUnusedSize_main,
        boxUsedSize_main]
      have harg : mainSize style.direction rect.size -
          (sumMainMeasured style.direction cs + (cs.length : Int) * style.gap) + style.gap =
          mainSize style.direction rect.size -
          (sumMainMeasured style.direction cs + style.gap * ((cs.length : Int) - 1)) := by
        ring
      rw [harg]
    · rw [if_neg hgrow, if_neg hgrow, add_zero]
  · intro a b
    rw [boxLayoutAlg_eq_zipWith, boxLayoutAlg_eq_zipWith]
    have hrects : ∀ c : Align, boxLayoutRects { style with main_align := c } cs rect =
        boxChildRects style.direction style.cross_align style.gap
          ((boxUnusedSize style.direction rect
            (boxUsedSize style.direction style.gap cs) style.gap).sdiv (countGrow cs : Int))
          cs rect := by
      intro c; simp [boxLayoutRects, hg]
    rw [hrects a, hrects b]

/-- C1 witness: the theorem applied to the two-grower configuration; the
first grower's main-axis allotment is 0 + max(0, 100 − 0)/2 = 50. -/
theorem C1_box_grow_distribution_witness :
    mainSize Direction.row
      ((boxLayoutRects Style.default [growLeaf, growLeaf] rect100).getD 0 default).size = 50 := by
  have h := (C1_box_grow_distribution (fun t _ => t) Style.default [growLeaf, growLeaf]
    rect100 (by decide)).2.1 0 (by decide)
  exact h.trans (by decide)

/-! ## C9 — Box containers without growers -/

/-- C9 counterexample: a Box container of main-axis size 100 with a single
non-growing child of `min_size` 200 arranges the child (not hidden) with
main-axis size 200, so the sum of child main-axis sizes plus gaps, 200,
exceeds the container's main-axis size 100. -/
theorem C9_counterexample_overflow :
    ((measure_and_layout 2
        (boxOver [LTree.node { Style.default with min_size := ⟨200, 50⟩ } Area.new
          Option.none []]) rect100).children.getD 0 default).area.hidden = false ∧
    ((measure_and_layout 2
        (boxOver [LTree.node { Style.default with min_size := ⟨200, 50⟩ } Area.new
          Option.none []]) rect100).children.getD 0 default).area.content_rect.size.width =
      200 ∧
    (measure_and_layout 2
        (boxOver [LTree.node { Style.default with min_size := ⟨200, 50⟩ } Area.new
          Option.none []]) rect100).area.content_rect.size.width = 100 ∧
    ¬ ((200 : Int) + 0 * ((1 : Int) - 1) ≤ 100) := by
  decide

/-- C9 (amended: the conservation inequality holds only when the measured
sizes fit — arrange never shrinks a child, so overflow is possible): in a
Box container with no growers, arrange hands each child exactly its measured
main-axis size, placed contiguously in direction order with exactly `gap`
between consecutive children. -/
theorem C9_box_no_growers (lf : LTree → Rect → LTree) (style : Style)
    (cs : List LTree) (rect : Rect) (hg : countGrow cs = 0) :
    (boxLayoutAlg lf style cs rect = List.zipWith lf cs (boxLayoutRects style cs rect)) ∧
    (∀ i, i < cs.length →
      mainSize style.direction ((boxLayoutRects style cs rect).getD i default).size =
        mainSize style.direction (cs.getD i default).area.measured_size) ∧
    (∀ i, i + 1 < cs.length →
      gapBetween style.direction ((boxLayoutRects style cs rect).getD i default)
        ((boxLayoutRects style cs rect).getD (i + 1) default) = style.gap) := by
  have hrects : boxLayoutRects style cs rect =
      boxChildRects style.direction style.cross_align style.gap Size.zero cs
        (match style.main_align with
         | .end' => (style.direction.layout_area rect
             (boxUnusedSize style.direction rect
               (boxUsedSize style.direction style.gap cs) style.gap) 0).2
         | .center => (style.direction.layout_area rect
             ((boxUnusedSize style.direction rect
               (boxUsedSize style.direction style.gap cs) style.gap).sdiv 2) 0).2
         | _ => rect) := by
    simp [boxLayoutRects, hg]
  refine ⟨boxLayoutAlg_eq_zipWith lf style cs rect, ?_, ?_⟩
  · intro i hi
    rw [hrects, boxChildRects_getD_main _ _ _ _ cs _ i hi]
    by_cases hgrow : (cs.getD i default).style.grow
    · rw [if_pos hgrow, add_main]
      have : mainSize style.direction Size.zero = 0 := by
        cases hdir : style.direction.horizontal <;> simp [mainSize, Size.zero, hdir]
      rw [this, add_zero]
    · rw [if_neg hgrow]
  · intro i hi
    rw [hrects]
    exact boxChildRects_pair_gap style.direction style.cross_align style.gap Size.zero cs _ i hi

/-- C9 witness: three fixed children of widths 10/30/20 with gap 5 in a row
box: the first child's allotment is 10 and consecutive children are 5
apart. -/
theorem C9_box_no_growers_witness :
    mainSize Direction.row
      ((boxLayoutRects { Style.default with gap := 5 }
        [fixedLeaf 10 20, fixedLeaf 30 20, fixedLeaf 20 20]
        ⟨Point.origin, ⟨200, 50⟩⟩).getD 0 default).size = 10 ∧
    gapBetween Direction.row
      ((boxLayoutRects { Style.default with gap := 5 }
        [fixedLeaf 10 20, fixedLeaf 30 20, fixedLeaf 20 20]
        ⟨Point.origin, ⟨200, 50⟩⟩).getD 0 default)
      ((boxLayoutRects { Style.default with gap := 5 }
        [fixedLeaf 10 20, fixedLeaf 30 20, fixedLeaf 20 20]
        ⟨Point.origin, ⟨200, 50⟩⟩).getD 1 default) = 5 := by
  have h := C9_box_no_growers (fun t _ => t) { Style.default with gap := 5 }
    [fixedLeaf 10 20, fixedLeaf 30 20, fixedLeaf 20 20]
    ⟨Point.origin, ⟨200, 50⟩⟩ (by decide)
  constructor
  · have h1 := h.2.1 0 (by decide)
    exact h1.trans (by decide)
  · exact h.2.2 0 (by decide)

/-! ## Grid-layout lemmas (C7) -/

lemma mem_stepByIndices {start len step i : Nat} :
    i ∈ stepByIndices start len step ↔ i < len ∧ start ≤ i ∧ (i - start) % step = 0 := by
  simp [stepByIndices, List.mem_filter, List.mem_range, and_comm]

lemma stepByIndices_nodup (start len step : Nat) : (stepByIndices start len step).Nodup :=
  List.Nodup.filter _ (List.nodup_range len)

/-- Every index is a member of its own column's stride list. -/
lemma mem_stepByIndices_mod {columns len i : Nat} (_hc : 0 < columns) (hi : i < len) :
    i ∈ stepByIndices (i % columns) len columns := by
  rw [mem_stepByIndices]
  refine ⟨hi, Nat.mod_le i columns, ?_⟩
  have hdm := Nat.div_add_mod i columns
  have hsub : i - i % columns = columns * (i / columns) := by omega
  rw [hsub]
  exact Nat.mul_mod_right columns (i / columns)

/-- An index is not in the stride list of a different column. -/
lemma not_mem_stepByIndices_ne {columns len c i : Nat} (hclt : c < columns)
    (hne : i % columns ≠ c) : i ∉ stepByIndices c len columns := by
  intro hmem
  rw [mem_stepByIndices] at hmem
  rcases hmem with ⟨_, hle, hmod⟩
  rcases Nat.dvd_of_mod_eq_zero hmod with ⟨k, hk⟩
  have hi : i = c + columns * k := by omega
  rw [hi, Nat.add_mul_mod_self_left] at hne
  exact hne (Nat.mod_eq_of_lt hclt)

lemma gridPlaceColumn_length (lf : LTree → Rect → LTree) (hor : Bool) (rs gap : Int) :
    ∀ (is : List Nat) (r : Rect) (ts : List LTree),
      (gridPlaceColumn lf hor rs gap is r ts).length = ts.length := by
  intro is
  induction is with
  | nil => intro r ts; rfl
  | cons j is ih =>
      intro r ts
      cases hj : ts[j]? <;> simp [gridPlaceColumn, hj, ih, List.length_set]

/-- Indices outside the column's stride list are untouched. -/
lemma gridPlaceColumn_getElem?_not_mem (lf : LTree → Rect → LTree) (hor : Bool)
    (rs gap : Int) :
    ∀ (is : List Nat) (r : Rect) (ts : List LTree) (i : Nat), i ∉ is →
      (gridPlaceColumn lf hor rs gap is r ts)[i]? = ts[i]? := by
  intro is
  induction is with
  | nil => intro r ts i _; rfl
  | cons j is ih =>
      intro r ts i hi
      have hij : j ≠ i := fun h => hi (h ▸ List.mem_cons_self j is)
      have hi' : i ∉ is := fun h => hi (List.mem_cons_of_mem j h)
      cases hj : ts[j]? with
      | none => simp [gridPlaceColumn, hj, ih _ _ _ hi']
      | some t =>
          simp only [gridPlaceColumn, hj]
          rw [ih _ _ _ hi', List.getElem?_set_ne hij]

/-- An index in the column's stride list gets the recursive arrange applied
at a rect of exactly the column rect's size (only the origin steps). -/
lemma gridPlaceColumn_getElem?_mem (lf : LTree → Rect → LTree) (hor : Bool)
    (rs gap : Int) :
    ∀ (is : List Nat) (r : Rect) (ts : List LTree) (i : Nat),
      is.Nodup → i ∈ is → i < ts.length →
      ∃ r' : Rect, r'.size = r.size ∧
        (gridPlaceColumn lf hor rs gap is r ts)[i]? =
          Option.some (lf (ts.getD i default) r') := by
  intro is
  induction is with
  | nil => intro r ts i _ hmem; simp at hmem
  | cons j is ih =>
      intro r ts i hnd hmem hlen
      have hjnotin : j ∉ is := (List.nodup_cons.mp hnd).1
      have hnd' : is.Nodup := (List.nodup_cons.mp hnd).2
      rcases List.mem_cons.mp hmem with heq | hmem'
      · subst heq
        have hts : ts[i]? = Option.some (ts.getD i default) := by
          rw [List.getD_eq_getElem?_getD, List.getElem?_eq_getElem hlen]
          rfl
        simp only [gridPlaceColumn, hts]
        rw [gridPlaceColumn_getElem?_not_mem lf hor rs gap is _ _ i hjnotin]
        refine ⟨r, rfl, ?_⟩
        rw [List.getElem?_set_eq_of_lt _ hlen]
      · have hij : i ≠ j := fun h => hjnotin (h ▸ hmem')
        cases hj : ts[j]? with
        | none =>
            simp only [gridPlaceColumn, hj]
            rcases ih (if hor then { r with origin := { r.origin with y := r.origin.y + rs + gap } }
                else { r with origin := { r.origin with x := r.origin.x + rs + gap } })
              ts i hnd' hmem' hlen with ⟨r', hr', hres⟩
            refine ⟨r', ?_, hres⟩
            rw [hr']
            by_cases hh : hor <;> simp [hh]
        | some t =>
            simp only [gridPlaceColumn, hj]
            have hlen' : i < (ts.set j (lf t r)).length := by
              rw [List.length_set]; exact hlen
            rcases ih (if hor then { r with origin := { r.origin with y := r.origin.y + rs + gap } }
                else { r with origin := { r.origin with x := r.origin.x + rs + gap } })
              (ts.set j (lf t r)) i hnd' hmem' hlen' with ⟨r', hr', hres⟩
            refine ⟨r', ?_, ?_⟩
            · rw [hr']
              by_cases hh : hor <;> simp [hh]
            · rw [hres]
              have : (ts.set j (lf t r)).getD i default = ts.getD i default := by
                rw [List.getD_eq_getElem?_getD, List.getD_eq_getElem?_getD,
                  List.getElem?_set_ne (Ne.symm hij)]
              rw [this]

lemma gridPlaceRows_length (lf : LTree → Rect → LTree) (dir : Direction)
    (columns len : Nat) (rs gap : Int) (gsp : Size) :
    ∀ (ris : List Nat) (rect : Rect) (ts : List LTree),
      (gridPlaceRows lf dir columns len rs gap gsp ris rect ts).length = ts.length := by
  intro ris
  induction ris with
  | nil => intro rect ts; rfl
  | cons ri ris ih =>
      intro rect ts
      cases hri : ts[ri]? with
      | none => simp [gridPlaceRows, hri]
      | some child =>
          simp only [gridPlaceRows, hri]
          rw [ih, gridPlaceColumn_length]

/-- The outer row loop: a child whose column is listed is arranged at a rect
whose cross-axis size is exactly `row_size`; children of unlisted columns
are untouched. -/
lemma gridPlaceRows_getElem? (lf : LTree → Rect → LTree) (dir : Direction)
    (columns len : Nat) (rs gap : Int) (gsp : Size) :
    ∀ (ris : List Nat) (rect : Rect) (ts : List LTree),
      ris.Nodup → (∀ c ∈ ris, c < columns) → (∀ c ∈ ris, c < ts.length) →
      ts.length = len →
      (∀ i, i < len → i % columns ∈ ris →
        ∃ r' : Rect, crossSize dir r'.size = rs ∧
          (gridPlaceRows lf dir columns len rs gap gsp ris rect ts)[i]? =
            Option.some (lf (ts.getD i default) r')) ∧
      (∀ i, i % columns ∉ ris →
        (gridPlaceRows lf dir columns len rs gap gsp ris rect ts)[i]? = ts[i]?) := by
  intro ris
  induction ris with
  | nil =>
      intro rect ts _ _ _ _
      exact ⟨fun i _ hmem => absurd hmem (List.not_mem_nil _), fun i _ => rfl⟩
  | cons ri ris ih =>
      intro rect ts hnd hcols hlens hlen
      have hrinotin : ri ∉ ris := (List.nodup_cons.mp hnd).1
      have hnd' : ris.Nodup := (List.nodup_cons.mp hnd).2
      have hricol : ri < columns := hcols ri (List.mem_cons_self ri ris)
      have hrilen : ri < ts.length := hlens ri (List.mem_cons_self ri ris)
      have hri : ts[ri]? = Option.some (ts.getD ri default) := by
        rw [List.getD_eq_getElem?_getD, List.getElem?_eq_getElem hrilen]
        rfl
      simp only [gridPlaceRows, hri]
      set child := ts.getD ri default with hchild
      set child_size := if child.style.grow then child.area.measured_size.add gsp
        else child.area.measured_size with hcs
      rcases hla : dir.layout_area rect child_size gap with ⟨cr, rect'⟩
      simp only [hla]
      set child_rect := (if dir.horizontal then { cr with size := { cr.size with height := rs } }
        else { cr with size := { cr.size with width := rs } }) with hcr
      set ts' := gridPlaceColumn lf dir.horizontal rs gap (stepByIndices ri len columns)
        child_rect ts with hts'
      have hts'len : ts'.length = ts.length := gridPlaceColumn_length _ _ _ _ _ _ _
      have hcols' : ∀ c ∈ ris, c < columns := fun c hc => hcols c (List.mem_cons_of_mem ri hc)
      have hlens' : ∀ c ∈ ris, c < ts'.length := fun c hc => by
        rw [hts'len]; exact hlens c (List.mem_cons_of_mem ri hc)
      have hlen' : ts'.length = len := by rw [hts'len]; exact hlen
      have hcross : crossSize dir child_rect.size = rs := by
        rw [hcr]; by_cases hh : dir.horizontal <;> simp [crossSize, hh]
      rcases ih rect' ts' hnd' hcols' hlens' hlen' with ⟨ihmem, ihnot⟩
      constructor
      · intro i hilen himem
        rcases List.mem_cons.mp himem with heq | hmem'
        · -- i's column is the one being placed now
          have histep : i ∈ stepByIndices ri len columns := by
            rw [← heq]
            exact mem_stepByIndices_mod (Nat.lt_of_le_of_lt (Nat.zero_le ri) hricol) (by omega)
          have hilen' : i < ts.length := by omega
          rcases gridPlaceColumn_getElem?_mem lf dir.horizontal rs gap
              (stepByIndices ri len columns) child_rect ts i
              (stepByIndices_nodup ri len columns) histep hilen' with ⟨r', hr', hres⟩
          refine ⟨r', by rw [← hcross, hr'], ?_⟩
          rw [ihnot i (by rw [heq]; exact hrinotin), hres]
        · have hine : i % columns ≠ ri := fun h => hrinotin (h ▸ hmem')
          have histep : i ∉ stepByIndices ri len columns :=
            not_mem_stepByIndices_ne hricol hine
          rcases ihmem i hilen hmem' with ⟨r', hr', hres⟩
          refine ⟨r', hr', ?_⟩
          rw [hres]
          have : ts'.getD i default = ts.getD i default := by
            rw [List.getD_eq_getElem?_getD, List.getD_eq_getElem?_getD, hts',
              gridPlaceColumn_getElem?_not_mem lf dir.horizontal rs gap _ _ _ i histep]
          rw [this]
      · intro i hnotin
        have hine : i % columns ≠ ri := fun h => hnotin (h ▸ List.mem_cons_self ri ris)
        have hnotin' : i % columns ∉ ris := fun h => hnotin (List.mem_cons_of_mem ri h)
        rw [ihnot i hnotin', hts',
          gridPlaceColumn_getElem?_not_mem lf dir.horizontal rs gap _ _ _ i
            (not_mem_stepByIndices_ne hricol hine)]

/-! ## C7 — uniform grid row size from the first child -/

/-- C7: every child of an arranged Grid container is handed a rect whose
cross-axis size equals the first child's measured cross-axis size — one
uniform row size for all rows, regardless of the measured cross-axis sizes
stored for children in later rows. -/
theorem C7_grid_uniform_row_size (lf : LTree → Rect → LTree) (style : Style)
    (cs : List LTree) (rect : Rect) (columns : Nat)
    (hc : 0 < columns) (hne : cs ≠ []) (i : Nat) (hi : i < cs.length) :
    ∃ r : Rect,
      crossSize style.direction r.size =
        crossSize style.direction ((cs.getD 0 default).area.measured_size) ∧
      (gridLayoutAlg lf style cs rect columns)[i]? =
        Option.some (lf (cs.getD i default) r) := by
  cases cs with
  | nil => exact absurd rfl hne
  | cons c cs' =>
      have happly : ∀ (gsp : Size) (R : Rect) (rs : Int),
          ∃ r' : Rect, crossSize style.direction r'.size = rs ∧
            (gridPlaceRows lf style.direction columns (c :: cs').length rs style.gap gsp
              (List.range (min columns (c :: cs').length)) R (c :: cs'))[i]? =
              Option.some (lf ((c :: cs').getD i default) r') := by
        intro gsp R rs
        refine (gridPlaceRows_getElem? lf style.direction columns (c :: cs').length rs
          style.gap gsp (List.range (min columns (c :: cs').length)) R (c :: cs')
          (List.nodup_range _)
          (fun x hx => lt_of_lt_of_le (List.mem_range.mp hx) (min_le_left _ _))
          (fun x hx => lt_of_lt_of_le (List.mem_range.mp hx) (min_le_right _ _))
          rfl).1 i hi ?_
        rw [List.mem_range]
        exact lt_min (Nat.mod_lt i hc) (lt_of_le_of_lt (Nat.mod_le i columns) hi)
      cases hdir : style.direction.horizontal with
      | true =>
          have hfix : crossSize style.direction ((c :: cs').getD 0 default).area.measured_size =
              c.area.measured_size.height := by
            simp [crossSize, hdir, List.getD_cons_zero]
          rw [hfix]
          by_cases hgc : countGrow ((c :: cs').take (min columns (c :: cs').length)) > 0
          · simp only [gridLayoutAlg, List.isEmpty_cons, Bool.false_eq_true, ite_false,
              ite_true, List.head?_cons, Option.map_some', Option.getD_some, hdir,
              if_pos hgc]
            exact happly _ _ _
          · simp only [gridLayoutAlg, List.isEmpty_cons, Bool.false_eq_true, ite_false,
              ite_true, List.head?_cons, Option.map_some', Option.getD_some, hdir,
              if_neg hgc]
            exact happly _ _ _
      | false =>
          have hfix : crossSize style.direction ((c :: cs').getD 0 default).area.measured_size =
              c.area.measured_size.width := by
            simp [crossSize, hdir, List.getD_cons_zero]
          rw [hfix]
          by_cases hgc : countGrow ((c :: cs').take (min columns (c :: cs').length)) > 0
          · simp only [gridLayoutAlg, List.isEmpty_cons, Bool.false_eq_true, ite_false,
              ite_true, List.head?_cons, Option.map_some', Option.getD_some, hdir,
              if_pos hgc]
            exact happly _ _ _
          · simp only [gridLayoutAlg, List.isEmpty_cons, Bool.false_eq_true, ite_false,
              ite_true, List.head?_cons, Option.map_some', Option.getD_some, hdir,
              if_neg hgc]
            exact happly _ _ _

/-- C7 witness: a 2-column grid of four children whose later rows store much
larger measured cross sizes; the last child is still arranged at the first
child's measured cross size 7. -/
theorem C7_grid_uniform_row_size_witness :
    ∃ r : Rect, crossSize Direction.row r.size = 7 ∧
      (gridLayoutAlg (fun t _ => t) Style.default
        [fixedLeaf 10 7, fixedLeaf 20 9, fixedLeaf 10 30, fixedLeaf 20 40]
        rect100 2)[3]? =
        Option.some (fixedLeaf 20 40) := by
  rcases C7_grid_uniform_row_size (fun t _ => t) Style.default
      [fixedLeaf 10 7, fixedLeaf 20 9, fixedLeaf 10 30, fixedLeaf 20 40]
      rect100 2 (by decide) (List.cons_ne_nil _ _) 3 (by decide) with ⟨r, h1, h2⟩
  exact ⟨r, h1.trans (by decide), h2⟩

/-! ## C4 — grab semantics

Each `Grab` return overwrites `grabbed_node`, so when several handlers
return `Grab` during one traversal only the last one becomes the grabbed
target; the claim's "if and only if its handler returned Grab" fails in
that case and is amended to "was the last to return Grab". -/

/-- The grab field after a dispatch is the fold of the `Grab` returns over
its trace. -/
lemma inputEvent_grabbedAfter (h : Handler) (order : List Nat) (g : Option Nat) :
    (inputEvent h order g).grabbedAfter = lastGrab (inputEvent h order g).trace := by
  cases g with
  | none =>
      have hf := dispatchList_grab_fold h false order false Option.none []
      simpa [inputEvent, lastGrab] using hf
  | some n =>
      have hf := dispatchList_grab_fold h true [n] false Option.none []
      simpa [inputEvent, lastGrab] using hf

/-- Targets and the `input.grabbed` flag of one dispatch are decided by the
incoming grab field: a grabbed dispatch goes to that single node with the
flag set, a traversal goes to the whole order with the flag clear. -/
lemma inputEvent_targets_flag (h : Handler) (order : List Nat) (g : Option Nat) :
    (inputEvent h order g).targets = (match g with | Option.some n => [n] | Option.none => order) ∧
    (inputEvent h order g).grabbedFlag = g.isSome := by
  cases g <;> simp [inputEvent]

/-- Each dispatch of a run consumes the grab field produced by the previous
one. -/
lemma runEvents_chain (order : List Nat) :
    ∀ (hs : List Handler) (g0 : Option Nat) (k : Nat),
      k + 1 < (runEvents order hs g0).length →
      ∃ h', (runEvents order hs g0).getD (k + 1) default =
        inputEvent h' order (((runEvents order hs g0).getD k default).grabbedAfter) := by
  intro hs
  induction hs with
  | nil => intro g0 k hk; simp [runEvents] at hk
  | cons h hs ih =>
      intro g0 k hk
      cases k with
      | zero =>
          cases hs with
          | nil => simp [runEvents] at hk
          | cons h2 hs2 =>
              exact ⟨h2, by simp [runEvents, List.getD_cons_zero, List.getD_cons_succ]⟩
      | succ j =>
          have hk' : j + 1 <
              (runEvents order hs (inputEvent h order g0).grabbedAfter).length := by
            simpa [runEvents] using hk
          rcases ih (inputEvent h order g0).grabbedAfter j hk' with ⟨h', hres⟩
          exact ⟨h', by simpa [runEvents, List.getD_cons_succ] using hres⟩

/-- Every element of a run is the result of some single dispatch. -/
lemma runEvents_mem (order : List Nat) :
    ∀ (hs : List Handler) (g0 : Option Nat) (k : Nat),
      k < (runEvents order hs g0).length →
      ∃ h g, (runEvents order hs g0).getD k default = inputEvent h order g := by
  intro hs
  induction hs with
  | nil => intro g0 k hk; simp [runEvents] at hk
  | cons h hs ih =>
      intro g0 k hk
      cases k with
      | zero => exact ⟨h, g0, by simp [runEvents, List.getD_cons_zero]⟩
      | succ j =>
          have hk' : j < (runEvents order hs (inputEvent h order g0).grabbedAfter).length := by
            simpa [runEvents] using hk
          rcases ih (inputEvent h order g0).grabbedAfter j hk' with ⟨h', g', hres⟩
          exact ⟨h', g', by simpa [runEvents, List.getD_cons_succ] using hres⟩

/-- C4 counterexample: when two handlers return `Grab` during event 0
(dispatch order `[2, 1]`), node 2 returned `Grab` but event 1's sole
dispatch target is node 1, not node 2 — "returned Grab during event N"
does not imply being the next event's target. -/
theorem C4_counterexample_double_grab :
    ((2, InputAction.grab) ∈
      ((runEvents [2, 1] [grabHandler, passHandler] Option.none).getD 0 default).trace) ∧
    ((runEvents [2, 1] [grabHandler, passHandler] Option.none).getD 1 default).grabbedFlag
      = true ∧
    ((runEvents [2, 1] [grabHandler, passHandler] Option.none).getD 1 default).targets
      = [1] ∧
    [1] ≠ [2] := by
  decide

/-- C4 (amended: "its handler returned Grab" → "its handler was the last,
in dispatch order, to return Grab"): in any event sequence, a node is the
sole dispatch target of event N+1 with `input.grabbed = true` iff the
dispatch of event N ended with it as the last `Grab` return; and since the
grab field is taken at the start of a grabbed dispatch, a grabbed widget
that does not re-assert `Grab` on event N+1 leaves event N+2 as an
ungrabbed full traversal. -/
theorem C4_grab_semantics (order : List Nat) (hs : List Handler) (g0 : Option Nat)
    (k : Nat) (n : Nat) (hk : k + 1 < (runEvents order hs g0).length) :
    ((((runEvents order hs g0).getD (k + 1) default).targets = [n] ∧
      ((runEvents order hs g0).getD (k + 1) default).grabbedFlag = true) ↔
      lastGrab (((runEvents order hs g0).getD k default).trace) = Option.some n) ∧
    ((((runEvents order hs g0).getD k default).grabbedFlag = true ∧
      lastGrab (((runEvents order hs g0).getD k default).trace) = Option.none) →
      ((runEvents order hs g0).getD (k + 1) default).grabbedFlag = false ∧
      ((runEvents order hs g0).getD (k + 1) default).targets = order) := by
  rcases runEvents_chain order hs g0 k hk with ⟨h', hchain⟩
  have hkk : k < (runEvents order hs g0).length := Nat.lt_of_succ_lt hk
  rcases runEvents_mem order hs g0 k hkk with ⟨hk', gk', hmemk⟩
  have hga : (((runEvents order hs g0).getD k default)).grabbedAfter =
      lastGrab (((runEvents order hs g0).getD k default)).trace := by
    rw [hmemk]; exact inputEvent_grabbedAfter hk' order gk'
  constructor
  · constructor
    · rintro ⟨htar, hflag⟩
      rw [hchain] at htar hflag
      rcases (inputEvent_targets_flag h' order
        (((runEvents order hs g0).getD k default)).grabbedAfter) with ⟨ht, hf⟩
      rw [ht] at htar
      rw [hf] at hflag
      cases hg : (((runEvents order hs g0).getD k default)).grabbedAfter with
      | none => rw [hg] at hflag; simp at hflag
      | some m =>
          rw [hg] at htar
          simp at htar
          rw [← hga, hg, htar]
    · intro hlast
      rw [hchain, hga, hlast]
      rcases inputEvent_targets_flag h' order (Option.some n) with ⟨ht, hf⟩
      exact ⟨by simpa using ht, by simpa using hf⟩
  · rintro ⟨_, hnone⟩
    rw [hchain, hga, hnone]
    rcases inputEvent_targets_flag h' order Option.none with ⟨ht, hf⟩
    exact ⟨by simpa using hf, by simpa using ht⟩

/-- C4 witness: the amended theorem applied to a run where event 0 grabs
node 5 and event 1 passes: event 1 is dispatched solely to node 5. -/
theorem C4_grab_semantics_witness :
    ((runEvents [5] [grabHandler, passHandler] Option.none).getD 1 default).targets = [5] := by
  have h := (C4_grab_semantics [5] [grabHandler, passHandler] Option.none 0 5 (by decide)).1
  exact (h.mpr (by decide)).1

/-! ## C5 — dispatch order over the tree -/

mutual

/-- With every widget visible and on the base layer, `update_layout_data`
starting from a single-layer list appends the pre-order widget ids to that
layer. -/
theorem updateLayoutData_single (t : WNode) (l : List Nat)
    (h1 : noSepLayer t = true) (h2 : allVisible t = true) :
    updateLayoutData t 0 [l] = [l ++ preorderWidgets t] := by
  cases t with
  | node i hasW vis sep cs =>
      simp only [noSepLayer, Bool.and_eq_true, Bool.not_eq_true'] at h1
      simp only [allVisible, Bool.and_eq_true] at h2
      cases hw : hasW with
      | false =>
          simp only [updateLayoutData, hw, Bool.false_and, Bool.not_false, Bool.true_or,
            ite_true, ite_false, Bool.false_eq_true, if_neg]
          rw [updateLayoutDataList_single cs l h1.2 h2.2]
          simp [preorderWidgets, hw]
      | true =>
          have hvis : vis = true := by
            rcases h2 with ⟨hv, _⟩
            rw [hw] at hv
            simpa using hv
          simp only [updateLayoutData, hw, hvis, h1.1, Bool.and_self, ite_true,
            Bool.not_true, Bool.false_or, Bool.false_eq_true, ite_false]
          have hpush : pushAt [l] 0 i = [l ++ [i]] := by
            simp [pushAt]
          rw [hpush, updateLayoutDataList_single cs (l ++ [i]) h1.2 h2.2]
          simp [preorderWidgets, hw, hvis]

theorem updateLayoutDataList_single (ts : List WNode) (l : List Nat)
    (h1 : noSepLayerList ts = true) (h2 : allVisibleList ts = true) :
    updateLayoutDataList ts 0 [l] = [l ++ preorderWidgetsList ts] := by
  cases ts with
  | nil => simp [updateLayoutDataList, preorderWidgetsList]
  | cons t ts =>
      simp only [noSepLayerList, Bool.and_eq_true] at h1
      simp only [allVisibleList, Bool.and_eq_true] at h2
      simp only [updateLayoutDataList]
      rw [updateLayoutData_single t l h1.1 h2.1,
        updateLayoutDataList_single ts (l ++ preorderWidgets t) h1.2 h2.2]
      simp [preorderWidgetsList]

end

mutual

/-- Starting from the empty layer list, `update_layout_data` produces the
single base layer holding the pre-order widget ids (or nothing if there are
no widgets). -/
theorem updateLayoutData_nilStart (t : WNode)
    (h1 : noSepLayer t = true) (h2 : allVisible t = true) :
    updateLayoutData t 0 [] =
      (if preorderWidgets t = [] then [] else [preorderWidgets t]) := by
  cases t with
  | node i hasW vis sep cs =>
      simp only [noSepLayer, Bool.and_eq_true, Bool.not_eq_true'] at h1
      simp only [allVisible, Bool.and_eq_true] at h2
      cases hw : hasW with
      | false =>
          simp only [updateLayoutData, hw, Bool.false_and, Bool.not_false, Bool.true_or,
            ite_true, Bool.false_eq_true, ite_false]
          rw [updateLayoutDataList_nilStart cs h1.2 h2.2]
          simp [preorderWidgets, hw]
      | true =>
          have hvis : vis = true := by
            rcases h2 with ⟨hv, _⟩
            rw [hw] at hv
            simpa using hv
          simp only [updateLayoutData, hw, hvis, h1.1, Bool.and_self, ite_true,
            Bool.not_true, Bool.false_or, Bool.false_eq_true, ite_false]
          have hpush : pushAt [] 0 i = [[i]] := by
            simp [pushAt]
          rw [hpush, updateLayoutDataList_single cs [i] h1.2 h2.2]
          simp [preorderWidgets, hw, hvis]

theorem updateLayoutDataList_nilStart (ts : List WNode)
    (h1 : noSepLayerList ts = true) (h2 : allVisibleList ts = true) :
    updateLayoutDataList ts 0 [] =
      (if preorderWidgetsList ts = [] then [] else [preorderWidgetsList ts]) := by
  cases ts with
  | nil => simp [updateLayoutDataList, preorderWidgetsList]
  | cons t ts =>
      simp only [noSepLayerList, Bool.and_eq_true] at h1
      simp only [allVisibleList, Bool.and_eq_true] at h2
      simp only [updateLayoutDataList]
      rw [updateLayoutData_nilStart t h1.1 h2.1]
      by_cases hp : preorderWidgets t = []
      · rw [if_pos hp, updateLayoutDataList_nilStart ts h1.2 h2.2]
        simp [preorderWidgetsList, hp]
      · rw [if_neg hp, updateLayoutDataList_single ts (preorderWidgets t) h1.2 h2.2]
        have hne : preorderWidgetsList (t :: ts) ≠ [] := by
          simp only [preorderWidgetsList]
          intro hc
          exact hp (List.append_eq_nil.mp hc).1
        rw [if_neg hne]
        simp [preorderWidgetsList]

end

/-- C5 counterexample: with a first child whose widget requests a separate
layer, dispatch visits that child before its later sibling — the children
are not offered the event in reverse children-list order. -/
theorem C5_counterexample_separate_layer :
    childOrderRespected sepLayerTree = false ∧
    dispatchOrderOf sepLayerTree = [1, 2, 0] := by
  decide

/-- C5 (amended: provided every widget is visible and none requests a
separate layer — separate-layer widgets are lifted to later layers, which
are offered the event first): when nothing is grabbed, dispatch order is the
reverse of the pre-order widget traversal, so each node's children (and
their subtrees) are offered the event in reverse children-list order before
the node's own widget; for a container with children `[A, B, C]` the order
is C, B, A, then the container. -/
theorem C5_dispatch_reverse_preorder (t : WNode)
    (h1 : noSepLayer t = true) (h2 : allVisible t = true) :
    dispatchOrderOf t = (preorderWidgets t).reverse ∧
    dispatchOrderOf abcTree = [3, 2, 1, 0] ∧
    childOrderRespected abcTree = true := by
  refine ⟨?_, by decide, by decide⟩
  unfold dispatchOrderOf
  rw [updateLayoutData_nilStart t h1 h2]
  by_cases hp : preorderWidgets t = []
  · simp [hp]
  · simp [hp]

/-- C5 witness: the amended theorem applied to the `[A, B, C]` container. -/
theorem C5_dispatch_reverse_preorder_witness :
    dispatchOrderOf abcTree = (preorderWidgets abcTree).reverse :=
  (C5_dispatch_reverse_preorder abcTree (by decide) (by decide)).1

end Silica
